import Mathlib

/-!
# Verification of the MBSPro agentic RAG core

A shallow embedding, in Lean 4, of the deterministic core of the MBSPro
billing-code recommendation service:

* the heuristic fact extractor (`facts.service.ts`),
* the rule parser (`rule-parser.service.ts`),
* the tri-state verifier (`verify.service.ts`),
* the constraint parsing / local result filter of the retriever
  (`query.service.ts`),
* the Deep-mode agent orchestration loop (`agent-graph.service.ts`).

JavaScript strings are modelled as `List Char`; the handful of regular
expressions used by the services are embedded as hand-written matchers with
the same leftmost-match / ordered-alternation / greedy-with-backtracking
semantics on the fragment of regex syntax those patterns use.  External
effects (vector search, rerankers, LLM calls) are modelled as oracle
parameters: the theorems quantify over all possible oracle answers.
-/

namespace MbsPro

/-! ## Characters and JS-style string primitives

`isWordChar` is the JS regex `\w` class, `isSpaceChar` covers the ASCII part
of `\s` (the inputs of interest are ASCII).  `lowerL` is
`String.prototype.toLowerCase` restricted to ASCII.
-/

def isWordChar (c : Char) : Bool :=
  c.isAlpha || c.isDigit || c = '_'

def isSpaceChar (c : Char) : Bool :=
  c = ' ' || c = '\t' || c = '\n' || c = '\r' || c = '\x0b' || c = '\x0c'

def lowerL (s : List Char) : List Char :=
  s.map Char.toLower

/-- `startsWithL pre s`: does `s` start with `pre`? -/
def startsWithL : List Char → List Char → Bool
  | [], _ => true
  | _ :: _, [] => false
  | p :: ps, c :: cs => p = c && startsWithL ps cs

/-- JS `String.prototype.includes`: substring containment. -/
def containsL (pat : List Char) : List Char → Bool
  | [] => startsWithL pat []
  | c :: cs => startsWithL pat (c :: cs) || containsL pat cs

def includesS (t : List Char) (pat : String) : Bool :=
  containsL pat.toList t

/-- Match a literal, returning the rest of the input. -/
def litL : List Char → List Char → Option (List Char)
  | [], cs => some cs
  | _ :: _, [] => none
  | p :: ps, c :: cs => if c = p then litL ps cs else none

def lit (s : String) (cs : List Char) : Option (List Char) :=
  litL s.toList cs

/-! ## Regex building blocks (CPS matchers)

A matcher gets the input after the current position and a continuation; it
returns the continuation's first success, trying alternatives in the order
the regex engine would (ordered alternation, greedy optionals with
backtracking).  `\s*` is embedded as `dropWhile` — in every pattern of this
repository `\s*`/`\s+` is followed by an atom that cannot match whitespace,
so the greedy skip is equivalent to full backtracking.
-/

def skipSpaces (cs : List Char) : List Char :=
  cs.dropWhile isSpaceChar

/-- `\s+` : at least one whitespace character, then skip the rest. -/
def spaces1 {α} (cs : List Char) (k : List Char → Option α) : Option α :=
  match cs with
  | c :: cs2 => if isSpaceChar c then k (cs2.dropWhile isSpaceChar) else none
  | [] => none

/-- Optional literal with backtracking: greedy, like `(?:s)?`. -/
def optLit {α} (s : String) (cs : List Char) (k : List Char → Option α) : Option α :=
  match litL s.toList cs with
  | some cs2 => k cs2 <|> k cs
  | none => k cs

def digitVal (c : Char) : Nat := c.toNat - '0'.toNat

/-- `(\d{1,3})` greedy with backtracking, passing the captured value on. -/
def digits13 {α} (cs : List Char) (k : Nat → List Char → Option α) : Option α :=
  match cs with
  | [] => none
  | c1 :: r1 =>
    if c1.isDigit then
      match r1 with
      | [] => k (digitVal c1) r1
      | c2 :: r2 =>
        if c2.isDigit then
          match r2 with
          | [] => k (digitVal c1 * 10 + digitVal c2) r2 <|> k (digitVal c1) r1
          | c3 :: r3 =>
            if c3.isDigit then
              k (digitVal c1 * 100 + digitVal c2 * 10 + digitVal c3) r3
                <|> k (digitVal c1 * 10 + digitVal c2) r2
                <|> k (digitVal c1) r1
            else k (digitVal c1 * 10 + digitVal c2) r2 <|> k (digitVal c1) r1
        else k (digitVal c1) r1
    else none

def natOfDigits (ds : List Char) : Nat :=
  ds.foldl (fun a c => a * 10 + digitVal c) 0

/-- `(\d+)` : in these patterns always followed by a non-digit requirement,
so the greedy take-all is exact. -/
def digitsAll {α} (cs : List Char) (k : Nat → List Char → Option α) : Option α :=
  match cs with
  | [] => none
  | c :: _ =>
    if c.isDigit then
      k (natOfDigits (cs.takeWhile Char.isDigit)) (cs.dropWhile (fun d => d.isDigit))
    else none

def wordO : Option Char → Bool
  | none => false
  | some c => isWordChar c

/-- `\b` when the following atom is a word character: the previous character
must be absent or a non-word character. -/
def bStart (prev : Option Char) : Bool :=
  !(wordO prev)

/-- `\b` when the preceding consumed character is a word character: the next
character must be absent or a non-word character. -/
def noWordHead (cs : List Char) : Bool :=
  match cs with
  | [] => true
  | c :: _ => !(isWordChar c)

/-- Leftmost-match scan: try the position-matcher at every index in turn,
threading the previous character (for `\b`). -/
def scanFrom {α} (m : Option Char → List Char → Option α) :
    Option Char → List Char → Option α
  | prev, [] => m prev []
  | prev, c :: cs => m prev (c :: cs) <|> scanFrom m (some c) cs

def findMatch {α} (m : Option Char → List Char → Option α) (t : List Char) : Option α :=
  scanFrom m none t

/-- A whole-word occurrence `\bw\b` (`w` a literal starting and ending in a
word character, possibly containing literal spaces as in `family doctor`). -/
def hasPhrase (w : String) (t : List Char) : Bool :=
  (findMatch (fun prev cs =>
    if bStart prev then
      match lit w cs with
      | some rest => if noWordHead rest then some () else none
      | none => none
    else none) t).isSome

def hasAnyPhrase (ws : List String) (t : List Char) : Bool :=
  ws.any (fun w => hasPhrase w t)

/-- `\bw` : leading boundary only (left half of`\bhospital|inpatient\b`). -/
def hasPhraseL (w : String) (t : List Char) : Bool :=
  (findMatch (fun prev cs =>
    if bStart prev then (lit w cs).map (fun _ => ()) else none) t).isSome

/-- `w\b` : trailing boundary only (right half of `\bhospital|inpatient\b`). -/
def hasPhraseR (w : String) (t : List Char) : Bool :=
  (findMatch (fun _ cs =>
    match lit w cs with
    | some rest => if noWordHead rest then some () else none
    | none => none) t).isSome

/-- Words separated by `\s+` with `\b` at both ends, e.g. `\busual\s+gp\b`. -/
def wordSeqAt {α} : List String → List Char → (List Char → Option α) → Option α
  | [], cs, k => k cs
  | [w], cs, k =>
    match lit w cs with
    | some rest => if noWordHead rest then k rest else none
    | none => none
  | w :: w2 :: ws, cs, k =>
    match lit w cs with
    | some rest => spaces1 rest (fun cs2 => wordSeqAt (w2 :: ws) cs2 k)
    | none => none

def hasWordSeq (ws : List String) (t : List Char) : Bool :=
  (findMatch (fun prev cs =>
    if bStart prev then wordSeqAt ws cs (fun _ => some ()) else none) t).isSome

end MbsPro

namespace MbsPro

/-! ## Specific pattern matchers for the duration / age heuristics

Each matcher embeds one regex from `facts.service.ts` (leftmost match,
ordered alternation, greedy backtracking).
-/

/-- Literal then continue. -/
def litK {α} (w : String) (cs : List Char) (k : List Char → Option α) : Option α :=
  match lit w cs with
  | some r => k r
  | none => none

/-- Literal then `\s+` then continue. -/
def litSp {α} (w : String) (cs : List Char) (k : List Char → Option α) : Option α :=
  match lit w cs with
  | some r => spaces1 r k
  | none => none

/-- Ordered alternation of literals sharing a continuation. -/
def altLits {α} : List String → List Char → (List Char → Option α) → Option α
  | [], _, _ => none
  | w :: ws, cs, k =>
    (match lit w cs with
     | some r => k r
     | none => none) <|> altLits ws cs k

/-- `min(?:ute)?s?` with continuation. -/
def minWord {α} (cs : List Char) (k : List Char → Option α) : Option α :=
  litK "min" cs (fun c1 => optLit "ute" c1 (fun c2 => optLit "s" c2 k))

/-- `\s*(\d{1,3})\s*min` with continuation on the capture. -/
def numMin {α} (cs : List Char) (k : Nat → List Char → Option α) : Option α :=
  digits13 (skipSpaces cs) (fun n c2 => litK "min" (skipSpaces c2) (fun r => k n r))

/-- `/(?:exactly|precisely|exact)\s+(\d{1,3})\s*min(?:ute)?s?/` -/
def mExact (t : List Char) : Option Nat :=
  findMatch (fun _ cs =>
    altLits ["exactly", "precisely", "exact"] cs (fun c1 =>
      spaces1 c1 (fun c2 =>
        digits13 c2 (fun n c3 =>
          minWord (skipSpaces c3) (fun _ => some n))))) t

/-- `/\b(\d{1,3})\s*min(?:ute)?s?\b/` -/
def mStandalone (t : List Char) : Option Nat :=
  findMatch (fun prev cs =>
    if bStart prev then
      digits13 cs (fun n c2 =>
        minWord (skipSpaces c2) (fun c3 => if noWordHead c3 then some n else none))
    else none) t

def dashChar (c : Char) : Bool := c = '-' || c = '–' || c = '—'

/-- `/(\d{1,3})\s*[-–—]\s*(\d{1,3})\s*min(?:ute)?s?/` -/
def mRange (t : List Char) : Option (Nat × Nat) :=
  findMatch (fun _ cs =>
    digits13 cs (fun a c1 =>
      match skipSpaces c1 with
      | c :: c2 =>
        if dashChar c then
          digits13 (skipSpaces c2) (fun b c3 =>
            minWord (skipSpaces c3) (fun _ => some (a, b)))
        else none
      | [] => none)) t

/-- `/at\s+least\s+(\d{1,3})\s*min(?:ute)?s?\s+and\s+less\s+than\s+(\d{1,3})/` -/
def mAtLeastLess (t : List Char) : Option (Nat × Nat) :=
  findMatch (fun _ cs =>
    litSp "at" cs (fun c => litSp "least" c (fun c =>
      digits13 c (fun a c =>
        litK "min" (skipSpaces c) (fun c => optLit "ute" c (fun c => optLit "s" c (fun c =>
          spaces1 c (fun c => litSp "and" c (fun c => litSp "less" c (fun c =>
            litSp "than" c (fun c =>
              digits13 c (fun b _ => some (a, b)))))))))))))  t

/-- The group `(?:≥|>=|at\s+least|not\s+less\s+than)`. -/
def mGeAlt {α} (cs : List Char) (k : List Char → Option α) : Option α :=
  litK "≥" cs k <|> litK ">=" cs k
    <|> litSp "at" cs (fun c => litK "least" c k)
    <|> litSp "not" cs (fun c => litSp "less" c (fun c => litK "than" c k))

/-- `/(?:≥|>=|at\s+least|not\s+less\s+than)\s*(\d{1,3})\s*min/` -/
def mAtLeastMin (t : List Char) : Option Nat :=
  findMatch (fun _ cs => mGeAlt cs (fun c => numMin c (fun n _ => some n))) t

/-- `/(?:more\s+than|>\s*)\s*(\d{1,3})\s*min/` -/
def mMoreThan (t : List Char) : Option Nat :=
  findMatch (fun _ cs =>
    litSp "more" cs (fun c => litK "than" c (fun c => numMin c (fun n _ => some n)))
      <|> litK ">" cs (fun c => numMin c (fun n _ => some n))) t

/-- `/(?:<|less\s+than)\s*(\d{1,3})\s*min/` -/
def mLessThan (t : List Char) : Option Nat :=
  findMatch (fun _ cs =>
    litK "<" cs (fun c => numMin c (fun n _ => some n))
      <|> litSp "less" cs (fun c => litK "than" c (fun c => numMin c (fun n _ => some n)))) t

/-- `\+?` with backtracking. -/
def optPlus {α} (cs : List Char) (k : List Char → Option α) : Option α :=
  match cs with
  | '+' :: r => k r <|> k cs
  | _ => k cs

/-- `/(\d{1,3})\s*\+?\s*min/` -/
def mPlusMin (t : List Char) : Option Nat :=
  findMatch (fun _ cs =>
    digits13 cs (fun n c =>
      optPlus (skipSpaces c) (fun c2 => litK "min" (skipSpaces c2) (fun _ => some n)))) t

/-- `[:\s]+` : one or more of colon / whitespace (greedy; the next atom is a
digit, so the greedy skip is exact). -/
def colonSpaces1 {α} (cs : List Char) (k : List Char → Option α) : Option α :=
  match cs with
  | c :: r =>
    if c = ':' || isSpaceChar c then k (r.dropWhile (fun d => d = ':' || isSpaceChar d))
    else none
  | [] => none

/-- `/(?:aged|age)[:\s]+(\d{1,3})\s*(?:years?|yrs?|y|yo|y\.?o\.?)?/` — the
trailing group is optional and so never affects whether the match succeeds,
nor the capture; it is elided. -/
def mAge1 (t : List Char) : Option Nat :=
  findMatch (fun _ cs =>
    (litK "aged" cs (fun c => colonSpaces1 c (fun c2 => digits13 c2 (fun n _ => some n))))
      <|> litK "age" cs (fun c => colonSpaces1 c (fun c2 => digits13 c2 (fun n _ => some n)))) t

/-- `\.?` with backtracking. -/
def optDot {α} (cs : List Char) (k : List Char → Option α) : Option α :=
  match cs with
  | '.' :: r => k r <|> k cs
  | _ => k cs

/-- `/(\d{1,3})\s*(?:years?\s*old|yrs?\s*old|yo|y\.?o\.?)/` -/
def mAge2 (t : List Char) : Option Nat :=
  findMatch (fun _ cs =>
    digits13 cs (fun n c =>
      let c1 := skipSpaces c
      (litK "year" c1 (fun c2 => optLit "s" c2 (fun c3 => litK "old" (skipSpaces c3) (fun _ => some n))))
        <|> (litK "yr" c1 (fun c2 => optLit "s" c2 (fun c3 => litK "old" (skipSpaces c3) (fun _ => some n))))
        <|> (litK "yo" c1 (fun _ => some n))
        <|> (litK "y" c1 (fun c2 => optDot c2 (fun c3 => litK "o" c3 (fun c4 => optDot c4 (fun _ => some n))))))) t

def headIsWord (cs : List Char) : Bool :=
  match cs with
  | [] => false
  | c :: _ => isWordChar c

/-- `/\b(\d{1,3})\s*(?:y|yo|y\.?o\.?)\b/` — the trailing `\b` is checked
against the last consumed character of each alternative (a `.` needs a word
character next, a letter needs a non-word character next). -/
def mAge3 (t : List Char) : Option Nat :=
  findMatch (fun prev cs =>
    if bStart prev then
      digits13 cs (fun n c =>
        let c1 := skipSpaces c
        (litK "y" c1 (fun c2 => if noWordHead c2 then some n else none))
          <|> (litK "yo" c1 (fun c2 => if noWordHead c2 then some n else none))
          <|> (litK "y" c1 (fun c2 => optDot c2 (fun c3 => litK "o" c3 (fun c4 =>
                match c4 with
                | '.' :: r => (if headIsWord r then some n else none)
                    <|> (if noWordHead c4 then some n else none)
                | _ => if noWordHead c4 then some n else none)))))
    else none) t

end MbsPro

namespace MbsPro

/-! ## Data model (`rag.types.ts`) -/

inductive Modality
  | in_person | video | phone
deriving DecidableEq, Repr

inductive Setting
  | consulting_rooms | hospital | residential_care | home | other
deriving DecidableEq, Repr

inductive VisitType
  | first | review | either
deriving DecidableEq, Repr

structure NoteFacts where
  duration_min : Option Int
  duration_max : Option Int
  duration_min_inclusive : Option Bool
  duration_max_inclusive : Option Bool
  modality : Option Modality
  after_hours : Option Bool
  setting : Option Setting
  first_or_review : Option VisitType
  referral_present : Option Bool
  specialty : Option String
  age : Option Int
  keywords : List String
  is_gp : Option Bool
  is_emergency : Option Bool
  is_specialist : Option Bool
deriving DecidableEq, Repr

/-- `Interval` of `rag.types.ts`. -/
structure Interval where
  min : Option Int
  max : Option Int
  left_closed : Bool
  right_closed : Bool
deriving DecidableEq, Repr

/-- `age_range` of an `ItemRule` (the closure flags are optional there). -/
structure AgeRange where
  min : Option Int
  max : Option Int
  left_closed : Option Bool
  right_closed : Option Bool
deriving DecidableEq, Repr

structure Condition where
  type : String
  description : String
deriving DecidableEq, Repr

structure ItemFlags where
  case_conference : Option Bool := none
  case_conference_min : Option Int := none
  usual_gp_required : Option Bool := none
  home_only : Option Bool := none
  referral_gp : Option Bool := none
  referral_specialist : Option Bool := none
deriving DecidableEq, Repr

structure ItemRule where
  code : String
  group : Option String := none
  subgroup : Option String := none
  time_window : Option Interval := none
  age_range : Option AgeRange := none
  setting_allowed : Option (List Setting) := none
  modality_allowed : Option (List Modality) := none
  specialty_required : Option String := none
  referral_required : Option Bool := none
  first_or_review : Option VisitType := none
  conditions : List Condition := []
  flags : Option ItemFlags := none
  evidence_spans : List String := []
  confidence : ℚ := 7 / 10
deriving DecidableEq

inductive Category
  | GP | Imaging | Specialist | Surgery | Pathology | Emergency | Telehealth | AfterHours | Other
deriving DecidableEq, Repr

inductive TriResult
  | PASS | SOFT | FAIL
deriving DecidableEq, Repr

structure TriCheck where
  name : String
  result : TriResult
  details : String
deriving DecidableEq, Repr

structure ReportCheck where
  name : String
  pass : Bool
  details : String
deriving DecidableEq, Repr

structure VerifyReport where
  item_code : String
  passes : Bool
  checks : List ReportCheck
  rationale_markdown : String
  categories : List Category
deriving DecidableEq, Repr

/-! ## Fact extractor (`facts.service.ts`)

`Partial<NoteFacts>` distinguishes absent (`undefined`) fields from fields
set to `null`; both levels matter to `needLLM`, so seed fields are doubly
optional: `none` = undefined, `some none` = null, `some (some v)` = value.
-/

structure SeedFacts where
  duration_min : Option (Option Int) := none
  duration_max : Option (Option Int) := none
  duration_min_inclusive : Option (Option Bool) := none
  duration_max_inclusive : Option (Option Bool) := none
  modality : Option (Option Modality) := none
  after_hours : Option (Option Bool) := none
  setting : Option (Option Setting) := none
  first_or_review : Option (Option VisitType) := none
  referral_present : Option (Option Bool) := none
  specialty : Option (Option String) := none
  age : Option (Option Int) := none
  keywords : List String := []
  is_gp : Option (Option Bool) := none
  is_emergency : Option (Option Bool) := none
  is_specialist : Option (Option Bool) := none
deriving DecidableEq, Repr

/-- The five duration fields, decided by the if/else-if cascade of
`extractNoteFactsHeuristic` (exact → standalone → range → at-least-and-less
→ at-least → more-than → less-than → plus). -/
def durationSeed (t : List Char) :
    Option (Option Int) × Option (Option Int) × Option (Option Bool) × Option (Option Bool) :=
  match mExact t with
  | some n => (some (some n), some (some n), some (some true), some (some true))
  | none =>
    match mStandalone t with
    | some n =>
      if !(includesS t "at least") && !(includesS t "more than") && !(includesS t "less than")
          && !(includesS t "≥") && !(includesS t ">=") && !(includesS t ">") then
        (some (some n), some (some n), some (some true), some (some true))
      else durationSeedRest t
    | none => durationSeedRest t
where
  durationSeedRest (t : List Char) :
      Option (Option Int) × Option (Option Int) × Option (Option Bool) × Option (Option Bool) :=
    match mRange t with
    | some (a, b) => (some (some a), some (some b), some (some true), some (some true))
    | none =>
      match mAtLeastLess t with
      | some (a, b) => (some (some a), some (some b), some (some true), some (some false))
      | none =>
        match mAtLeastMin t with
        | some n => (some (some n), some none, some (some true), some (some false))
        | none =>
          match mMoreThan t with
          | some n => (some (some n), some none, some (some false), some (some false))
          | none =>
            match mLessThan t with
            | some n => (some (some (max 0 ((n : Int) - 1))), some (some n), some (some true), some (some false))
            | none =>
              match mPlusMin t with
              | some n => (some (some n), some none, some (some true), some (some false))
              | none => (none, none, none, none)

/-- Age cascade: `ageMatch` → `ageMatch2` → `ageMatch3`. -/
def ageSeed (t : List Char) : Option (Option Int) :=
  match mAge1 t with
  | some n => some (some n)
  | none =>
    match mAge2 t with
    | some n => some (some n)
    | none =>
      match mAge3 t with
      | some n => some (some n)
      | none => none

def videoWords : List String :=
  ["video", "telehealth", "zoom", "virtual", "skype", "webex", "teams"]

def phoneWords : List String :=
  ["phone", "telephone", "call"]

/-- Modality is always set (defaults to `in_person`). -/
def modalitySeed (t : List Char) : Option (Option Modality) :=
  if hasAnyPhrase videoWords t then some (some .video)
  else if hasAnyPhrase phoneWords t then some (some .phone)
  else some (some .in_person)

/-- `/\bhospital|inpatient\b/` splits as `(\bhospital)|(inpatient\b)`. -/
def hasHospital (t : List Char) : Bool :=
  hasPhraseL "hospital" t || hasPhraseR "inpatient" t

/-- `/\bconsulting\s+rooms?\b/` -/
def hasConsultingRooms (t : List Char) : Bool :=
  (findMatch (fun prev cs =>
    if bStart prev then
      litK "consulting" cs (fun c => spaces1 c (fun c =>
        litK "room" c (fun c => optLit "s" c (fun c =>
          if noWordHead c then some () else none))))
    else none) t).isSome

/-- `/\bresidential\s+(aged\s+)?care\b/` -/
def hasResidentialCare (t : List Char) : Bool :=
  (findMatch (fun prev cs =>
    if bStart prev then
      litK "residential" cs (fun c => spaces1 c (fun c =>
        (litSp "aged" c (fun c2 => litK "care" c2 (fun r => if noWordHead r then some () else none)))
          <|> litK "care" c (fun r => if noWordHead r then some () else none)))
    else none) t).isSome

def hasHomeVisit (t : List Char) : Bool :=
  hasWordSeq ["home", "visit"] t

def settingSeed (t : List Char) : Option (Option Setting) :=
  if hasHospital t then some (some .hospital)
  else if hasConsultingRooms t then some (some .consulting_rooms)
  else if hasResidentialCare t then some (some .residential_care)
  else if hasHomeVisit t then some (some .home)
  else none

/-- `[-\s]?` with backtracking. -/
def optDashSpace {α} (cs : List Char) (k : List Char → Option α) : Option α :=
  match cs with
  | c :: r => if c = '-' || isSpaceChar c then k r <|> k cs else k cs
  | [] => k cs

/-- `/\bafter[-\s]?hours\b/` -/
def hasAfterHours (t : List Char) : Bool :=
  (findMatch (fun prev cs =>
    if bStart prev then
      litK "after" cs (fun c => optDashSpace c (fun c =>
        litK "hours" c (fun r => if noWordHead r then some () else none)))
    else none) t).isSome

def specialistWords : List String :=
  ["specialist", "consultant", "surgeon", "anaesthetist", "cardiologist", "dermatologist",
   "endocrinologist", "gastroenterologist", "neurologist", "oncologist", "orthopaedic",
   "psychiatrist", "radiologist", "urologist", "orthopedic", "gynaecologist", "obstetrician",
   "paediatrician", "geriatrician", "rheumatologist", "nephrologist", "haematologist",
   "pulmonologist"]

def gpPhrases : List String :=
  ["general practitioner", "gp", "family doctor", "primary care"]

def emergencyPhrases : List String :=
  ["emergency", "ed", "emergency department", "emergency room", "er", "urgent care",
   "acute care", "trauma", "resuscitation", "ambulance", "paramedic"]

def routineWords : List String :=
  ["routine", "elective", "scheduled", "appointment", "clinic", "consultation"]

/-- The keyword bag, in the push order of the source. -/
def keywordsOf (t : List Char) : List String :=
  (if hasPhrase "conference" t then ["conference"] else [])
    ++ (if hasPhrase "team" t then ["team"] else [])
    ++ (if hasPhrase "multidisciplinary" t then ["multidisciplinary"] else [])
    ++ (if hasWordSeq ["usual", "gp"] t then ["usual gp"] else [])
    ++ (if hasWordSeq ["usual", "medical", "practitioner"] t then ["usual medical practitioner"] else [])
    ++ (if hasWordSeq ["home", "visit"] t then ["home visit"] else [])
    ++ (if hasWordSeq ["attendance", "at", "home"] t then ["attendance at home"] else [])
    ++ (if hasWordSeq ["gp", "referral"] t then ["gp referral"] else [])
    ++ (if hasWordSeq ["referring", "practitioner"] t then ["referring practitioner"] else [])
    ++ (if hasWordSeq ["specialist", "referral"] t then ["specialist referral"] else [])
    ++ (if hasWordSeq ["referred", "to", "specialist"] t then ["referred to specialist"] else [])
    ++ (if hasPhrase "specialist" t then ["specialist"] else [])
    ++ (if hasPhrase "doctor" t then ["doctor"] else [])
    ++ (if hasPhrase "practitioner" t then ["practitioner"] else [])
    ++ (if hasPhrase "nurse" t then ["nurse"] else [])
    ++ (if hasPhrase "therapist" t then ["therapist"] else [])
    ++ (if hasPhrase "consultant" t then ["consultant"] else [])

/-- `extractNoteFactsHeuristic` of `facts.service.ts`. -/
def extractNoteFactsHeuristic (note : String) : SeedFacts :=
  let t := lowerL note.toList
  let d := durationSeed t
  { duration_min := d.1
    duration_max := d.2.1
    duration_min_inclusive := d.2.2.1
    duration_max_inclusive := d.2.2.2
    age := ageSeed t
    modality := modalitySeed t
    setting := settingSeed t
    after_hours := if hasAfterHours t then some (some true) else none
    first_or_review :=
      if hasPhrase "review" t then some (some .review)
      else if hasPhrase "first" t then some (some .first)
      else none
    referral_present := if hasPhrase "referral" t then some (some true) else none
    is_gp :=
      if hasAnyPhrase specialistWords t then some (some false)
      else if hasAnyPhrase gpPhrases t then some (some true)
      else none
    is_specialist :=
      if hasAnyPhrase specialistWords t then some (some true)
      else if hasAnyPhrase gpPhrases t then some (some false)
      else none
    is_emergency :=
      if hasAnyPhrase emergencyPhrases t then some (some true)
      else if hasAnyPhrase routineWords t then some (some false)
      else none
    specialty := none
    keywords := keywordsOf t }

/-- `needLLM` condition of `extractNoteFacts` (`==`/`===` against
null/undefined as in the source). -/
def needLLM (seed : SeedFacts) : Bool :=
  seed.duration_min.join.isNone || seed.modality.join.isNone || seed.setting.join.isNone
    || seed.duration_max.isNone || seed.duration_min_inclusive.isNone
    || seed.duration_max_inclusive.isNone || seed.age.join.isNone

/-- The `NoteFacts` assembly shared by the heuristic-only branch and the
LLM-failure catch branch of `extractNoteFacts` (their field expressions are
identical). -/
def seedToFacts (seed : SeedFacts) : NoteFacts :=
  { duration_min := seed.duration_min.join
    duration_max := seed.duration_max.join
    duration_min_inclusive :=
      seed.duration_min_inclusive.join
        <|> (if seed.duration_min.join.isSome then some true else none)
    duration_max_inclusive :=
      seed.duration_max_inclusive.join
        <|> (if seed.duration_max.join.isSome then some false else none)
    modality := seed.modality.join
    after_hours := seed.after_hours.join
    setting := some (seed.setting.join.getD .other)
    first_or_review := seed.first_or_review.join
    referral_present := seed.referral_present.join
    specialty := seed.specialty.join
    age := seed.age.join
    keywords := seed.keywords
    is_gp := seed.is_gp.join
    is_emergency := seed.is_emergency.join
    is_specialist := seed.is_specialist.join }

/-- `extractNoteFacts` on its two deterministic paths: the heuristic-only
path (`needLLM` false) and the LLM-failure fallback path both return
`seedToFacts` of the heuristic seed. -/
def extractNoteFactsDeterministic (note : String) : NoteFacts :=
  seedToFacts (extractNoteFactsHeuristic note)

end MbsPro

namespace MbsPro

/-! ## Rule parser (`rule-parser.service.ts`) -/

/-- `/at\s+least\s+(\d+)\s*min(?:ute)?s?\s+and\s+less\s+than\s+(\d+)/` -/
def pIntervalA (t : List Char) : Option (Nat × Nat) :=
  findMatch (fun _ cs =>
    litSp "at" cs (fun c => litSp "least" c (fun c =>
      digitsAll c (fun a c =>
        litK "min" (skipSpaces c) (fun c => optLit "ute" c (fun c => optLit "s" c (fun c =>
          spaces1 c (fun c => litSp "and" c (fun c => litSp "less" c (fun c =>
            litSp "than" c (fun c =>
              digitsAll c (fun b _ => some (a, b)))))))))))))  t

/-- `/(?:≥|>=|at\s+least|not\s+less\s+than)\s+(\d+)\s*min/` (note the `\s+`
before the digits, unlike the fact extractor's variant). -/
def pIntervalB (t : List Char) : Option Nat :=
  findMatch (fun _ cs =>
    mGeAlt cs (fun c =>
      spaces1 c (fun c =>
        digitsAll c (fun n c => litK "min" (skipSpaces c) (fun _ => some n))))) t

/-- `/(?:<|less\s+than)\s+(\d+)\s*min/` -/
def pIntervalC (t : List Char) : Option Nat :=
  findMatch (fun _ cs =>
    (litK "<" cs (fun c => spaces1 c (fun c =>
       digitsAll c (fun n c => litK "min" (skipSpaces c) (fun _ => some n)))))
      <|> litSp "less" cs (fun c => litK "than" c (fun c => spaces1 c (fun c =>
            digitsAll c (fun n c => litK "min" (skipSpaces c) (fun _ => some n)))))) t

/-- `parseIntervalFromDesc`. -/
def parseIntervalFromDesc (desc : String) : Option Interval :=
  let t := lowerL desc.toList
  match pIntervalA t with
  | some (a, b) => some ⟨some a, some b, true, false⟩
  | none =>
    match pIntervalB t with
    | some n => some ⟨some n, none, true, false⟩
    | none =>
      match pIntervalC t with
      | some n => some ⟨some 0, some n, true, false⟩
      | none => none

/-- `years?` then continue. -/
def yearsWord {α} (cs : List Char) (k : List Char → Option α) : Option α :=
  litK "year" cs (fun c => optLit "s" c k)

/-- `/aged\s+(\d+)\s+years?\s+or\s+more/` -/
def pAgeA (t : List Char) : Option Nat :=
  findMatch (fun _ cs =>
    litSp "aged" cs (fun c => digitsAll c (fun n c => spaces1 c (fun c =>
      yearsWord c (fun c => spaces1 c (fun c =>
        litSp "or" c (fun c => litK "more" c (fun _ => some n)))))))) t

/-- `/aged\s+at\s+least\s+(\d+)\s+years?\s+and\s+less\s+than\s+(\d+)\s+years?/` -/
def pAgeB (t : List Char) : Option (Nat × Nat) :=
  findMatch (fun _ cs =>
    litSp "aged" cs (fun c => litSp "at" c (fun c => litSp "least" c (fun c =>
      digitsAll c (fun a c => spaces1 c (fun c => yearsWord c (fun c =>
        spaces1 c (fun c => litSp "and" c (fun c => litSp "less" c (fun c =>
          litSp "than" c (fun c => digitsAll c (fun b c => spaces1 c (fun c =>
            yearsWord c (fun _ => some (a, b))))))))))))))) t

/-- `/aged\s+less\s+than\s+(\d+)\s+years?/` -/
def pAgeC (t : List Char) : Option Nat :=
  findMatch (fun _ cs =>
    litSp "aged" cs (fun c => litSp "less" c (fun c => litSp "than" c (fun c =>
      digitsAll c (fun n c => spaces1 c (fun c => yearsWord c (fun _ => some n))))))) t

/-- `/aged\s+between\s+(\d+)\s+and\s+(\d+)\s+years?/` -/
def pAgeD (t : List Char) : Option (Nat × Nat) :=
  findMatch (fun _ cs =>
    litSp "aged" cs (fun c => litSp "between" c (fun c =>
      digitsAll c (fun a c => spaces1 c (fun c => litSp "and" c (fun c =>
        digitsAll c (fun b c => spaces1 c (fun c =>
          yearsWord c (fun _ => some (a, b)))))))))) t

/-- `/aged\s+at\s+least\s+(\d+)\s+years?/` -/
def pAgeE (t : List Char) : Option Nat :=
  findMatch (fun _ cs =>
    litSp "aged" cs (fun c => litSp "at" c (fun c => litSp "least" c (fun c =>
      digitsAll c (fun n c => spaces1 c (fun c => yearsWord c (fun _ => some n))))))) t

/-- `parseAgeRange`. -/
def parseAgeRange (desc : String) : Option AgeRange :=
  let t := lowerL desc.toList
  match pAgeA t with
  | some n => some ⟨some n, none, some true, some false⟩
  | none =>
    match pAgeB t with
    | some (a, b) => some ⟨some a, some b, some true, some false⟩
    | none =>
      match pAgeC t with
      | some n => some ⟨some 0, some n, some true, some false⟩
      | none =>
        match pAgeD t with
        | some (a, b) => some ⟨some a, some b, some true, some false⟩
        | none =>
          match pAgeE t with
          | some n => some ⟨some n, none, some true, some false⟩
          | none => none

/-- `parseSetting` (substring `includes` checks). -/
def parseSetting (desc : String) : Option (List Setting) :=
  let t := lowerL desc.toList
  let v : List Setting :=
    (if includesS t "consulting rooms" then [.consulting_rooms] else [])
      ++ (if includesS t "hospital" || includesS t "inpatient" then [.hospital] else [])
      ++ (if includesS t "residential aged care" || includesS t "residential care" then [.residential_care] else [])
  if v.isEmpty then none else some v

/-- `parseModality`; `/\bvideo|telehealth\b/` and `/\btelephone|phone\b/`
split at the alternation as in the fact extractor. -/
def parseModality (desc : String) : List Modality :=
  let t := lowerL desc.toList
  let v : List Modality :=
    (if hasPhraseL "video" t || hasPhraseR "telehealth" t then [.video] else [])
      ++ (if hasPhraseL "telephone" t || hasPhraseR "phone" t then [.phone] else [])
  if v.isEmpty then [.in_person] else v

def parseSpecialty (desc : String) : Option String :=
  let t := lowerL desc.toList
  if includesS t "general practitioner" then some "gp"
  else if includesS t "sexual health medicine specialist" then some "sexual_health_specialist"
  else none

def parseReferral (desc : String) : Option Bool :=
  if includesS (lowerL desc.toList) "referral" then some true else none

def parseFirstOrReview (desc : String) : Option VisitType :=
  let t := lowerL desc.toList
  if includesS t "first attendance" || includesS t "initial consultation"
      || includesS t "initial assessment" then some .first
  else if includesS t "review" then some .review
  else none

/-! ### `parseConditions` — the two `/g` exec loops -/

theorem dropWhile_length_le (p : α → Bool) (l : List α) :
    (l.dropWhile p).length ≤ l.length := by
  induction l with
  | nil => simp [List.dropWhile]
  | cons c cs ih =>
    simp only [List.dropWhile]
    cases p c <;> simp <;> omega

/-- The tail `(?:\s*,\s*\d+)*` of the item-list capture, greedy; returns the
raw digit substrings and the remaining input.  Structural recursion on a
fuel counter (each step consumes at least the comma, so `cs.length` steps
suffice; the fuel-0 case is unreachable). -/
def commaNumTailF : Nat → List Char → List String × List Char
  | 0, cs => ([], cs)
  | fuel + 1, cs =>
    let cs1 := skipSpaces cs
    match cs1 with
    | ',' :: cs2 =>
      let cs3 := skipSpaces cs2
      let ds := cs3.takeWhile Char.isDigit
      if ds.isEmpty then ([], cs)
      else
        let r := commaNumTailF fuel (cs3.dropWhile Char.isDigit)
        (ds.asString :: r.1, r.2)
    | _ => ([], cs)

def commaNumTail (cs : List Char) : List String × List Char :=
  commaNumTailF cs.length cs

/-- `(\d+(?:\s*,\s*\d+)*)` : the captured item numbers (raw digit strings)
and the rest of the input. -/
def numListAt (cs : List Char) : Option ((List String) × List Char) :=
  let ds := cs.takeWhile Char.isDigit
  if ds.isEmpty then none
  else
    let r := commaNumTail (cs.dropWhile Char.isDigit)
    some (ds.asString :: r.1, r.2)

/-- Ordered alternation of literals, passing the matched literal on. -/
def altLitsCap {α} : List String → List Char → (String → List Char → Option α) → Option α
  | [], _, _ => none
  | w :: ws, cs, k =>
    (match lit w cs with
     | some r => k w r
     | none => none) <|> altLitsCap ws cs k

/-- Common tail of both condition patterns:
`\s+(?:assessment|consultation)\s+(?:under\s+)?(?:item\s+)?(\d+(?:\s*,\s*\d+)*)`. -/
def condTail (cs : List Char) : Option (List String × List Char) :=
  spaces1 cs (fun c =>
    altLits ["assessment", "consultation"] c (fun c =>
      spaces1 c (fun c =>
        ((litSp "under" c (fun c2 => (litSp "item" c2 numListAt) <|> numListAt c2))
          <|> (litSp "item" c numListAt)
          <|> numListAt c))))

/-- One match of
`/(before or after)\s+(?:a\s+)?(comprehensive|initial|review)\s+…/`. -/
def condPat1At (cs : List Char) : Option ((String × List String) × List Char) :=
  litK "before or after" cs (fun c =>
    spaces1 c (fun c =>
      ((litSp "a" c (fun c2 => condPat1Type c2)) <|> condPat1Type c)))
where
  condPat1Type (c : List Char) : Option ((String × List String) × List Char) :=
    altLitsCap ["comprehensive", "initial", "review"] c (fun ty c =>
      (condTail c).map (fun r => ((ty, r.1), r.2)))

/-- One match of `/(follows?)\s+(?:an\s+)?(initial|review)\s+…/`. -/
def condPat2At (cs : List Char) : Option ((String × List String) × List Char) :=
  litK "follow" cs (fun c =>
    optLit "s" c (fun c =>
      spaces1 c (fun c =>
        ((litSp "an" c (fun c2 => condPat2Type c2)) <|> condPat2Type c))))
where
  condPat2Type (c : List Char) : Option ((String × List String) × List Char) :=
    altLitsCap ["initial", "review"] c (fun ty c =>
      (condTail c).map (fun r => ((ty, r.1), r.2)))

/-- The `while (pattern.exec(t))` loop of a `/g` regex: successive
non-overlapping leftmost matches.  Structural recursion on a fuel counter
(every step either advances one position or consumes a non-empty match, so
`l.length + 1` steps suffice; fuel 0 is unreachable). -/
def execAllF {α} (m : List Char → Option (α × List Char)) : Nat → List Char → List α
  | 0, _ => []
  | _ + 1, [] =>
    (match m [] with
     | some (a, _) => [a]
     | none => [])
  | fuel + 1, c :: cs =>
    match m (c :: cs) with
    | some (a, rest) => a :: execAllF m fuel rest
    | none => execAllF m fuel cs

def execAll {α} (m : List Char → Option (α × List Char)) (l : List Char) : List α :=
  execAllF m (l.length + 1) l

/-- `parseConditions`. -/
def parseConditions (desc : String) : List Condition :=
  let t := lowerL desc.toList
  let m1 := execAll condPat1At t
  let m2 := execAll condPat2At t
  (m1.map (fun p =>
      { type := "relation_required",
        description := "before/after " ++ p.1 ++ " assessment (" ++ String.intercalate "/" p.2 ++ ")" }))
    ++ m2.map (fun p =>
      { type := "relation_required",
        description := "after " ++ p.1 ++ " assessment (" ++ String.intercalate "/" p.2 ++ ")" })

/-- `/at\s+least\s+(\d+)\s+other\s+(?:formal\s+)?care\s+providers/` -/
def pCareProviders (t : List Char) : Option Nat :=
  findMatch (fun _ cs =>
    litSp "at" cs (fun c => litSp "least" c (fun c =>
      digitsAll c (fun n c => spaces1 c (fun c =>
        litSp "other" c (fun c =>
          ((litSp "formal" c (fun c2 => careTail n c2)) <|> careTail n c))))))) t
where
  careTail (n : Nat) (c : List Char) : Option Nat :=
    litSp "care" c (fun c => litK "providers" c (fun _ => some n))

/-- `parseFlags` (returns `none` when no flag was set, like the source's
`undefined`). -/
def parseFlags (desc : String) : Option ItemFlags :=
  let t := lowerL desc.toList
  let conf := includesS t "case conference" || includesS t "multidisciplinary"
    || includesS t "multidisciplinary meeting"
  let f : ItemFlags :=
    { case_conference := if conf then some true else none
      case_conference_min :=
        if conf then
          match pCareProviders t with
          | some n => some ((n : Int) + 1)
          | none => none
        else none
      usual_gp_required :=
        if includesS t "usual gp" || includesS t "usual medical practitioner" then some true else none
      home_only :=
        if includesS t "home visit" || includesS t "attendance at home" then some true else none
      referral_gp :=
        if includesS t "gp referral" || includesS t "referring practitioner" then some true else none
      referral_specialist :=
        if includesS t "specialist referral" then some true else none }
  if f = ({} : ItemFlags) then none else some f

/-- Normalized catalog metadata as consumed by `buildItemRuleFromDesc`. -/
structure MetaRec where
  description : Option String := none
  duration_min_minutes : Option Int := none
  duration_max_minutes : Option Int := none
  duration_min_inclusive : Option Bool := none
  duration_max_inclusive : Option Bool := none
  group : Option String := none
  subgroup : Option String := none
  schedule_fee : Option Int := none
deriving DecidableEq, Repr

/-- `buildItemRuleFromDesc`: structured duration metadata overrides the
textual parse; everything else is parsed from the description. -/
def buildItemRuleFromDesc (code : String) (desc : String) (meta : MetaRec) : ItemRule :=
  let interval : Option Interval :=
    if meta.duration_min_minutes.isSome || meta.duration_max_minutes.isSome then
      some { min := meta.duration_min_minutes
             max := meta.duration_max_minutes
             left_closed := meta.duration_min_inclusive.getD true
             right_closed := meta.duration_max_inclusive.getD false }
    else parseIntervalFromDesc desc
  { code := code
    time_window := interval
    age_range := parseAgeRange desc
    setting_allowed := parseSetting desc
    modality_allowed := some (parseModality desc)
    specialty_required := parseSpecialty desc
    referral_required := parseReferral desc
    first_or_review := parseFirstOrReview desc
    conditions := parseConditions desc
    flags := parseFlags desc
    evidence_spans := []
    confidence := 7 / 10 }

end MbsPro

namespace MbsPro

/-! ## Verifier (`verify.service.ts`) -/

def strIncludes (s pat : String) : Bool :=
  containsL pat.toList s.toList

/-- JS `String.prototype.startsWith`. -/
def strStartsWith (s pre : String) : Bool :=
  startsWithL pre.toList s.toList

def lowerStr (s : String) : String :=
  (lowerL s.toList).asString

def settingStr : Setting → String
  | .consulting_rooms => "consulting_rooms"
  | .hospital => "hospital"
  | .residential_care => "residential_care"
  | .home => "home"
  | .other => "other"

def modalityStr : Modality → String
  | .in_person => "in_person"
  | .video => "video"
  | .phone => "phone"

def visitStr : VisitType → String
  | .first => "first"
  | .review => "review"
  | .either => "either"

/-- `getCategoriesFromGroup`. -/
def getCategoriesFromGroup (group : String) (subgroup : Option String) : List Category :=
  let cats : List Category :=
    (if group.startsWith "A1" || group.startsWith "A7" then [.GP] else [])
      ++ (if group.startsWith "A3" || group.startsWith "A4" || group.startsWith "A28"
            || group.startsWith "A29" then [.Specialist] else [])
      ++ (if group.startsWith "A40" then [.Telehealth] else [])
      ++ (if group.startsWith "A11" || group.startsWith "A22" || group.startsWith "A23"
            then [.AfterHours] else [])
      ++ (if group.startsWith "A21" then [.Emergency] else [])
      ++ (if group.startsWith "T1" && subgroup = some "14" then [.Emergency] else [])
      ++ (if group.startsWith "I" then [.Imaging] else [])
      ++ (if group.startsWith "T8" || strIncludes (lowerStr group) "anaes" then [.Surgery] else [])
      ++ (if group.startsWith "P" then [.Pathology] else [])
  if cats.isEmpty then [.Other] else cats

structure CheckResult where
  pass : Bool
  details : String
deriving DecidableEq, Repr

/-- `a ?? 0 ≥ b ?? 0` style comparisons against `Infinity`: `none` stands
for `Infinity` on the `max` side. -/
def leOI : Option Int → Option Int → Bool
  | _, none => true
  | none, some _ => false
  | some x, some y => x ≤ y

/-- `fMin < rMax` with `rMax` possibly `Infinity`. -/
def ltOpt (x : Int) : Option Int → Bool
  | none => true
  | some y => x < y

/-- `fMax > rMin` with `fMax` possibly `Infinity`. -/
def gtOI : Option Int → Int → Bool
  | none, _ => true
  | some x, y => x > y

def showMaxE : Option Int → String
  | none => "∞"
  | some v => toString v

/-- `intervalsOverlap`. -/
def intervalsOverlap (fMin : Int) (fMax : Option Int) (rMin : Int) (rMax : Option Int) : Bool :=
  ltOpt fMin rMax && gtOI fMax rMin

/-- `checkTimeWindow` (the legacy `timeThreshold` alias of `time_window` is
not produced by any rule builder and is elided). -/
def checkTimeWindow (facts : NoteFacts) (rule : ItemRule) : CheckResult :=
  match rule.time_window with
  | none => ⟨true, ""⟩
  | some win =>
    let fMin : Int := facts.duration_min.getD 0
    let fMax : Option Int := facts.duration_max
    let rMin : Int := win.min.getD 0
    let rMax : Option Int := win.max
    let inside := decide (fMin ≥ rMin) && leOI fMax rMax
    if inside then ⟨true, ""⟩
    else if intervalsOverlap fMin fMax rMin rMax then ⟨true, "soft_pass_overlap"⟩
    else ⟨false, "duration [" ++ toString fMin ++ "," ++ showMaxE fMax ++ ") not in rule ["
          ++ toString rMin ++ "," ++ showMaxE rMax ++ ")"⟩

def triTime (note : NoteFacts) (rule : ItemRule) : TriResult × String :=
  let r := checkTimeWindow note rule
  if !r.pass && strStartsWith r.details "duration" then (.FAIL, r.details)
  else if r.pass && strIncludes r.details "soft_pass_overlap" then (.SOFT, r.details)
  else (.PASS, "")

/-- `checkAgeRange`. -/
def checkAgeRange (facts : NoteFacts) (rule : ItemRule) : CheckResult :=
  match rule.age_range with
  | none => ⟨true, ""⟩
  | some ageRange =>
    match facts.age with
    | none => ⟨true, "soft_info_missing: unknown age"⟩
    | some patientAge =>
      let min : Int := ageRange.min.getD 0
      let max : Option Int := ageRange.max
      let leftClosed := ageRange.left_closed.getD true
      let rightClosed := ageRange.right_closed.getD false
      let minCheck := if leftClosed then decide (patientAge ≥ min) else decide (patientAge > min)
      let maxCheck := if rightClosed then leOI (some patientAge) max else ltOpt patientAge max
      if minCheck && maxCheck then ⟨true, ""⟩
      else
        ⟨false, "require age " ++ (if leftClosed then "[" else "(") ++ toString min ++ ","
          ++ showMaxE max ++ (if rightClosed then "]" else ")")⟩

def triAge (note : NoteFacts) (rule : ItemRule) : TriResult × String :=
  let r := checkAgeRange note rule
  if !r.pass && strStartsWith r.details "require age" then (.FAIL, r.details)
  else if r.pass && strIncludes r.details "soft_info_missing" then (.SOFT, r.details)
  else (.PASS, "")

/-- `triModality`. -/
def triModality (noteModality : Option Modality) (ruleModalityAllowed : Option (List Modality)) :
    TriResult × String :=
  match ruleModalityAllowed with
  | none => (.PASS, "")
  | some allowed =>
    if allowed.isEmpty then (.PASS, "")
    else
      let actualModality := noteModality.getD .in_person
      if allowed.contains actualModality then (.PASS, modalityStr actualModality)
      else
        let isTelehealthOnly := allowed.contains .video && !allowed.contains .in_person
        let isPhoneOnly := allowed.contains .phone && !allowed.contains .in_person
        let isInPersonOnly := allowed.contains .in_person && !allowed.contains .video
          && !allowed.contains .phone
        if isTelehealthOnly && actualModality = .in_person then
          (.SOFT, "telehealth not mentioned")
        else if isPhoneOnly && actualModality = .in_person then
          (.SOFT, "phone consultation not mentioned")
        else if isInPersonOnly && (actualModality = .video || actualModality = .phone) then
          (.FAIL, "in-person consultation required, but telehealth/phone used")
        else
          (.SOFT, "modality not specified, "
            ++ String.intercalate "|" (allowed.map modalityStr) ++ " may be required")

def telehealthKeywords : List String :=
  ["telehealth", "phone", "home visit", "video", "virtual", "remote"]

def hospitalKeywords : List String :=
  ["hospital", "consulting rooms", "clinic"]

/-- `triSetting` (`noteText` is the joined keyword bag). -/
def triSetting (noteSetting : Option Setting) (ruleSettingAllowed : Option (List Setting))
    (noteText : String) : TriResult × String :=
  match ruleSettingAllowed with
  | none => (.PASS, "")
  | some allowed =>
    if allowed.isEmpty then (.PASS, "")
    else if noteSetting = none || noteSetting = some .other then
      let hasTelehealthKeywords :=
        telehealthKeywords.any (fun k => strIncludes (lowerStr noteText) k)
      if hasTelehealthKeywords then
        (.FAIL, "telehealth/remote setting conflicts with hospital/consulting rooms requirement")
      else
        (.SOFT, "setting not specified, "
          ++ String.intercalate "/" (allowed.map settingStr) ++ " may be required")
    else
      match noteSetting with
      | some s =>
        if allowed.contains s then (.PASS, settingStr s)
        else
          let hasHospitalKeywords :=
            hospitalKeywords.any (fun k => strIncludes (lowerStr noteText) k)
          if hasHospitalKeywords && !allowed.contains .hospital
              && !allowed.contains .consulting_rooms then
            (.FAIL, "hospital/consulting rooms setting conflicts with requirement")
          else
            (.SOFT, "setting not specified, "
              ++ String.intercalate "|" (allowed.map settingStr) ++ " may be required")
      | none => (.PASS, "")

/-- `triFirstOrReview`. -/
def triFirstOrReview (val : Option VisitType) (req : Option VisitType) : TriResult × String :=
  match req with
  | none => (.PASS, "")
  | some r =>
    if r = .either then (.PASS, "")
    else
      match val with
      | none => (.SOFT, "unknown visit type")
      | some v => if v = r then (.PASS, "") else (.FAIL, "require " ++ visitStr r)

/-- `triReferral` (`!ruleReferralRequired` is falsy for `null` and `false`). -/
def triReferral (noteReferral : Option Bool) (ruleReferralRequired : Option Bool) :
    TriResult × String :=
  if ruleReferralRequired ≠ some true then (.PASS, "")
  else
    match noteReferral with
    | none => (.SOFT, "referral not specified, GP referral may be required")
    | some false => (.FAIL, "GP referral required")
    | some true => (.PASS, "referral present")

/-- `triSpecialty` (`!req` / `!val` are falsy for `null` and `""`). -/
def triSpecialty (val : Option String) (req : Option String) : TriResult × String :=
  match req with
  | none => (.PASS, "")
  | some r =>
    if r = "" then (.PASS, "")
    else
      match val with
      | none => (.SOFT, "check if the specialist type matches the required specialty")
      | some v =>
        if v = "" then (.SOFT, "check if the specialist type matches the required specialty")
        else if lowerStr v = lowerStr r then (.PASS, "") else (.FAIL, "require " ++ r)

/-- `checkConditions`. -/
def checkConditions (rule : ItemRule) : CheckResult :=
  if rule.conditions.isEmpty then ⟨true, ""⟩
  else
    let descs := rule.conditions.filterMap (fun c =>
      if c.type = "relation_required" then some ("need to confirm " ++ c.description) else none)
    if !descs.isEmpty then ⟨true, "soft_info_missing: " ++ String.intercalate "; " descs⟩
    else ⟨true, ""⟩

def triConditions (rule : ItemRule) : TriResult × String :=
  let r := checkConditions rule
  if !r.pass then (.FAIL, r.details)
  else if r.pass && strIncludes r.details "soft_info_missing" then (.SOFT, r.details)
  else (.PASS, "")

/-- `triIsGp`. -/
def triIsGp (noteIsGp : Option Bool) (ruleCategories : List Category) : TriResult × String :=
  if !ruleCategories.contains .GP then (.PASS, "")
  else
    match noteIsGp with
    | none => (.SOFT, "GP context not specified, may be required")
    | some false => (.FAIL, "Requires GP attendance, but specialist/ED context found")
    | some true => (.PASS, "GP attendance matched")

/-- `triIsSpecialist`. -/
def triIsSpecialist (noteIsSpecialist : Option Bool) (ruleCategories : List Category) :
    TriResult × String :=
  if !ruleCategories.contains .Specialist then (.PASS, "")
  else
    match noteIsSpecialist with
    | none => (.SOFT, "Specialist context not specified, may be required")
    | some false => (.FAIL, "Requires specialist, but GP/ED context found")
    | some true => (.PASS, "Specialist attendance matched")

/-- `triIsEmergency`. -/
def triIsEmergency (noteIsEmergency : Option Bool) (ruleCategories : List Category) :
    TriResult × String :=
  if !ruleCategories.contains .Emergency then (.PASS, "")
  else
    match noteIsEmergency with
    | none => (.SOFT, "Emergency context not specified, may be required")
    | some false => (.FAIL, "Requires ED attendance, but no ED context found")
    | some true => (.PASS, "ED attendance matched")

/-! ### Flag checks -/

/-- The participant-count alternation with its last characters, for
`/\b(specialist|doctor|practitioner|nurse|therapist|consultant)\b/g`. -/
def roleWords : List (String × Char) :=
  [("specialist", 't'), ("doctor", 'r'), ("practitioner", 'r'), ("nurse", 'e'),
   ("therapist", 't'), ("consultant", 't')]

def roleAt : List (String × Char) → List Char → Option (Char × List Char)
  | [], _ => none
  | (w, last) :: ws, cs =>
    (match lit w cs with
     | some rest => if noWordHead rest then some (last, rest) else none
     | none => none) <|> roleAt ws cs

/-- Number of (non-overlapping, word-bounded) role-noun matches, as
`String.prototype.match` with a `/g` regex counts them.  Structural
recursion on a fuel counter (every step consumes at least one character, so
`l.length` steps suffice; fuel 0 is unreachable). -/
def countRolesF : Nat → Option Char → List Char → Nat
  | 0, _, _ => 0
  | _ + 1, _, [] => 0
  | fuel + 1, prev, c :: cs =>
    match (if bStart prev then roleAt roleWords (c :: cs) else none) with
    | some (last, rest) => 1 + countRolesF fuel (some last) rest
    | none => countRolesF fuel (some c) cs

def countRoles (prev : Option Char) (l : List Char) : Nat :=
  countRolesF l.length prev l

def countParticipants (noteText : String) : Nat :=
  countRoles none noteText.toList

/-- `checkFlags`: the per-flag results in object-insertion order. -/
def checkFlags (facts : NoteFacts) (rule : ItemRule) : List (String × CheckResult) :=
  match rule.flags with
  | none => []
  | some flags =>
    let noteText := lowerStr (String.intercalate " " facts.keywords)
    (if flags.case_conference = some true then
      [("case_conference",
        if !(strIncludes noteText "conference" || strIncludes noteText "team"
              || strIncludes noteText "multidisciplinary") then
          ⟨true, "soft_info_missing: conference/team not mentioned"⟩
        else
          match flags.case_conference_min with
          | some n =>
            if n ≠ 0 then
              if (countParticipants noteText : Int) < n then
                ⟨false, "require team ≥" ++ toString n⟩
              else ⟨true, ""⟩
            else ⟨true, ""⟩
          | none => ⟨true, ""⟩)]
     else [])
    ++ (if flags.usual_gp_required = some true then
        [("usual_gp",
          if !(strIncludes noteText "usual gp" || strIncludes noteText "usual medical practitioner") then
            ⟨true, "soft_info_missing: not confirmed"⟩
          else ⟨true, ""⟩)]
       else [])
    ++ (if flags.home_only = some true then
        [("home_only",
          if !(strIncludes noteText "home visit" || strIncludes noteText "home setting"
                || strIncludes noteText "attendance at home") then
            ⟨true, "soft_info_missing: home setting not mentioned"⟩
          else ⟨true, ""⟩)]
       else [])
    ++ (if flags.referral_gp = some true then
        [("referral_gp",
          match facts.referral_present with
          | none => ⟨true, "soft_info_missing: referral not specified, GP referral may be required"⟩
          | some false => ⟨false, "GP referral required"⟩
          | some true => ⟨true, "referral present"⟩)]
       else [])
    ++ (if flags.referral_specialist = some true then
        [("referral_specialist",
          if !(strIncludes noteText "specialist referral"
                || strIncludes noteText "referred to specialist") then
            ⟨true, "soft_info_missing: not mentioned"⟩
          else ⟨true, ""⟩)]
       else [])

/-- `triFlags`. -/
def triFlags (facts : NoteFacts) (rule : ItemRule) : List TriCheck :=
  (checkFlags facts rule).map (fun fc =>
    if fc.2.pass && strIncludes fc.2.details "soft_info_missing" then
      ⟨fc.1, .SOFT, fc.2.details⟩
    else if !fc.2.pass then ⟨fc.1, .FAIL, fc.2.details⟩
    else ⟨fc.1, .PASS, fc.2.details⟩)

def surgeryKeywords : List String :=
  ["operation", "surgery", "anaesthesia", "incision", "drainage", "procedure", "reduction",
   "repair", "open", "closed reduction", "orif", "fixation"]

def contrastKeywords : List String :=
  ["with contrast", "intravenous contrast", "iv contrast", "contrast enhanced"]

def bodyRegions : List String :=
  ["brain", "facial", "face", "head", "chest", "abdomen", "spine", "neck", "pelvis",
   "extremity", "limb"]

def ultrasoundKeywords : List String :=
  ["ultrasound", "sonography", "us"]

/-- `refineByKeywords` (early-return cascade). -/
def refineByKeywords (note : NoteFacts) (display : String)
    (group : Option String) (subgroup : Option String) : TriResult × String :=
  let noteText := lowerStr (String.intercalate " " note.keywords)
  let displayLower := lowerStr display
  let groupIsSurgery :=
    match group with
    | some g => g ≠ "" && (getCategoriesFromGroup g subgroup).contains .Surgery
    | none => false
  if groupIsSurgery && !(surgeryKeywords.any (fun k => strIncludes noteText k)) then
    (.SOFT, "surgery/anaesthesia not mentioned")
  else if strIncludes displayLower "ct"
      && (strIncludes displayLower "with contrast" || strIncludes displayLower "contrast enhanced")
      && !(contrastKeywords.any (fun k => strIncludes noteText k)) then
    (.SOFT, "contrast not mentioned")
  else if strIncludes displayLower "ct" && !(strIncludes displayLower "with contrast")
      && strIncludes noteText "ct" && bodyRegions.any (fun k => strIncludes noteText k) then
    (.PASS, "")
  else if (strIncludes displayLower "ultrasound" || strIncludes displayLower "sonography"
        || strIncludes displayLower "us ")
      && !(ultrasoundKeywords.any (fun k => strIncludes noteText k)) then
    (.SOFT, "ultrasound not mentioned")
  else (.PASS, "")

/-- The ordered list of tri-state checks run by `verifyOneTri`. -/
def triChecksOf (note : NoteFacts) (rule : ItemRule) : List TriCheck :=
  let categories :=
    match rule.group with
    | some g => if g = "" then [Category.Other] else getCategoriesFromGroup g rule.subgroup
    | none => [Category.Other]
  let t := triTime note rule
  let a := triAge note rule
  let m := triModality note.modality rule.modality_allowed
  let noteText := lowerStr (String.intercalate " " note.keywords)
  let s := triSetting note.setting rule.setting_allowed noteText
  let fr := triFirstOrReview note.first_or_review rule.first_or_review
  let r := triReferral note.referral_present rule.referral_required
  let sp := triSpecialty note.specialty rule.specialty_required
  let c := triConditions rule
  let g := triIsGp note.is_gp categories
  let e := triIsEmergency note.is_emergency categories
  let spec := triIsSpecialist note.is_specialist categories
  let kw := refineByKeywords note (String.intercalate " " rule.evidence_spans) rule.group rule.subgroup
  [⟨"time_window", t.1, t.2⟩, ⟨"age", a.1, a.2⟩, ⟨"modality", m.1, m.2⟩, ⟨"setting", s.1, s.2⟩,
   ⟨"first_or_review", fr.1, fr.2⟩, ⟨"referral", r.1, r.2⟩, ⟨"specialty", sp.1, sp.2⟩,
   ⟨"conditions", c.1, c.2⟩, ⟨"is_gp", g.1, g.2⟩, ⟨"is_emergency", e.1, e.2⟩,
   ⟨"is_specialist", spec.1, spec.2⟩]
    ++ triFlags note rule
    ++ [⟨"keyword_refine", kw.1, kw.2⟩]

def flattenCheck (c : TriCheck) : ReportCheck :=
  { name := c.name
    pass := c.result ≠ .FAIL
    details := if c.result = .SOFT then (if c.details = "" then "uncertain" else c.details)
      else c.details }

structure TriOut where
  report : VerifyReport
  hardFail : Bool
  soft : Bool
deriving DecidableEq, Repr

/-- `verifyOneTri`. -/
def verifyOneTri (note : NoteFacts) (rule : ItemRule) : TriOut :=
  let categories :=
    match rule.group with
    | some g => if g = "" then [Category.Other] else getCategoriesFromGroup g rule.subgroup
    | none => [Category.Other]
  let triChecks := triChecksOf note rule
  let hasHardFail := triChecks.any (fun c => c.result = .FAIL)
  let hasSoft := triChecks.any (fun c => c.result = .SOFT)
  let checks := triChecks.map flattenCheck
  let passes := !hasHardFail
  let rationale_markdown :=
    if hasHardFail then
      "**" ++ rule.code ++ "** ❌ Failed:\n"
        ++ String.intercalate "\n"
          ((triChecks.filter (fun c => c.result = .FAIL)).map
            (fun c => "- " ++ c.name ++ ": " ++ c.details))
    else if hasSoft then
      "**" ++ rule.code ++ "** ⚠️ Uncertain:\n"
        ++ String.intercalate "\n"
          ((triChecks.filter (fun c => c.result = .SOFT)).map
            (fun c => "- " ++ c.name ++ ": " ++ (if c.details = "" then "uncertain" else c.details)))
    else "**" ++ rule.code ++ "** ✅ Passed: all requirements satisfied."
  { report :=
      { item_code := rule.code
        passes := passes
        checks := checks
        rationale_markdown := rationale_markdown
        categories := categories }
    hardFail := hasHardFail
    soft := hasSoft }

end MbsPro

namespace MbsPro

/-! ## Retriever query parsing and local filtering (`query.service.ts`)

Only the deterministic parts are embedded: `parseConstraints` (clean query,
must / must-not tokens, banned codes) and the post-synthesis local filter
and meta/score attachment.  The Pinecone metadata-filter object built from
`must` tokens configures only the external vector search and is not
modelled; vector search, rerankers and the LLM synthesis are oracles.
-/

def trimL (cs : List Char) : List Char :=
  ((cs.dropWhile isSpaceChar).reverse.dropWhile isSpaceChar).reverse

/-- Split at the first `/\n#constraints/i`: the part before it and, when
present, the whole section from the newline on. -/
def findConstraints : List Char → List Char × Option (List Char)
  | [] => ([], none)
  | c :: cs =>
    if c = '\n' && startsWithL "#constraints".toList (lowerL cs) then ([], some (c :: cs))
    else
      let r := findConstraints cs
      (c :: r.1, r.2)

/-- `String.prototype.replace` with a case-insensitive literal pattern:
remove the first occurrence. -/
def removeFirstCI (pat : String) : List Char → List Char
  | [] => []
  | c :: cs =>
    if startsWithL pat.toList (lowerL (c :: cs)) then (c :: cs).drop pat.toList.length
    else c :: removeFirstCI pat cs

/-- `split(/\s+/)` followed by `filter(Boolean)`: the maximal non-whitespace
runs (the intermediate `.map(t => t.trim())` is the identity on them).
Structural recursion on a fuel counter (every step consumes at least one
character, so `l.length` steps suffice; fuel 0 is unreachable). -/
def tokenizeWsF : Nat → List Char → List (List Char)
  | 0, _ => []
  | _ + 1, [] => []
  | fuel + 1, c :: cs =>
    if isSpaceChar c then tokenizeWsF fuel cs
    else (c :: cs.takeWhile (fun d => !isSpaceChar d))
      :: tokenizeWsF fuel (cs.dropWhile (fun d => !isSpaceChar d))

def tokenizeWs (l : List Char) : List (List Char) :=
  tokenizeWsF l.length l

/-- `tok.split(':')` as used here: the part before the first colon and, when
a colon exists, the segment between the first and second colon. -/
def splitColon (tok : String) : String × Option String :=
  let cs := tok.toList
  let k := cs.takeWhile (fun c => c ≠ ':')
  match cs.dropWhile (fun c => c ≠ ':') with
  | [] => (k.asString, none)
  | _ :: rest => (k.asString, some ((rest.takeWhile (fun c => c ≠ ':')).asString))

structure Constraints where
  cleanQuery : String
  must : List String
  mustNot : List String
  bannedCodes : List String
deriving DecidableEq, Repr

/-- `parseConstraints` of `queryRag` (clean query, token lists, and the
banned set accumulated from `must_not` `code:X` tokens). -/
def parseConstraints (text : String) : Constraints :=
  let (pre, sect) := findConstraints text.toList
  let cleanQuery := (trimL pre).asString
  let constraintLine := sect.getD []
  let tokens := (tokenizeWs (removeFirstCI "#constraints" constraintLine)).map List.asString
  let must := tokens.filterMap (fun t =>
    match t.toList with
    | '+' :: r => some r.asString
    | _ => none)
  let mustNot := tokens.filterMap (fun t =>
    match t.toList with
    | '+' :: _ => none
    | '-' :: r => some r.asString
    | _ => none)
  let bannedCodes := mustNot.filterMap (fun tok =>
    let kv := splitColon tok
    match kv.2 with
    | none => none
    | some v => if kv.1 ≠ "" && lowerStr kv.1 = "code" then some v else none)
  { cleanQuery := cleanQuery, must := must, mustNot := mustNot, bannedCodes := bannedCodes }

/-- One synthesized result row.  `itemNum` stands for the
`itemNum ?? item_num ?? code` alias chain of the JSON shape; the `itemNums`
bundle-array variant is not produced by the flows modelled here. -/
structure SynthResult where
  itemNum : String
  title : String
  match_reason : String := ""
  fee : Option Int := none
  match_score : Option Int := none
  meta : Option MetaRec := none
  description : Option String := none
deriving DecidableEq, Repr

/-- The local banned-code filter applied to the synthesized results: it uses
only the caller's `excludeCodes` (and only when that list is non-empty). -/
def localFilterResults (excludeCodes : List String) (results : List SynthResult) :
    List SynthResult :=
  if excludeCodes.isEmpty then results
  else results.filter (fun r => r.itemNum ≠ "" && !excludeCodes.contains r.itemNum)

/-- The meta/score attachment map (`itemBestScore` and `metaByItemNum` are
parameters, being computed from the upstream retrieval). -/
def attachMeta (scoreOf : String → Option Int) (metaOf : String → Option MetaRec)
    (results : List SynthResult) : List SynthResult :=
  results.map (fun item =>
    let score := scoreOf item.itemNum
    let meta := if item.itemNum ≠ "" then metaOf item.itemNum else none
    { item with
      match_score := score
      meta := meta
      description := item.description <|> (meta.bind (fun m => m.description)) <|> some item.title })

/-- The post-synthesis processing of `queryRag`: local exclude filter, then
meta/score attachment. -/
def queryRagPostprocess (excludeCodes : List String) (scoreOf : String → Option Int)
    (metaOf : String → Option MetaRec) (results : List SynthResult) : List SynthResult :=
  attachMeta scoreOf metaOf (localFilterResults excludeCodes results)

end MbsPro

namespace MbsPro

/-! ## Agent orchestrator (`agent-graph.service.ts`), Deep mode

Retriever responses are an oracle `Nat → Nat → List RResult` (round index,
attempt index); the query strings assembled from the enhanced query and the
constraint tokens select what the external retriever sees, and the oracle
quantification covers every possible answer.
-/

/-- One result row consumed by the orchestrator.  `code` stands for the
`itemNum ?? item_num ?? code` alias chain; `fee` for the already-numeric
`fee ?? schedule_fee` value (the string-to-number coercion of fee text is
upstream of this model). -/
structure RResult where
  code : String
  title : String := ""
  description : Option String := none
  meta : MetaRec := {}
  match_score : Option Int := none
  fee : Option Int := none
deriving DecidableEq, Repr

/-- `desc` selection of `verifyBatch`:
`r.meta?.description ?? r.description ?? … ?? r.title ?? ''`. -/
def descOf (r : RResult) : String :=
  (r.meta.description.orElse (fun _ => r.description)).getD r.title

structure VItem where
  code : String
  display : String
  fee : Option Int
  score : Option Int
  verify : VerifyReport
  group : Option String
deriving DecidableEq, Repr

structure BatchOut where
  items : List VItem
  failedCodes : List String
  softCodes : List String
  passedCodes : List String
  seenCodes : List String
deriving DecidableEq, Repr

/-- The loop body of `verifyBatch`: skip empty codes, build a rule, verify,
partition. -/
def verifyBatchStep (facts : NoteFacts) (acc : BatchOut) (r : RResult) : BatchOut :=
  if r.code = "" then acc
  else
    let rule := buildItemRuleFromDesc r.code (descOf r) r.meta
    let tri := verifyOneTri facts rule
    if tri.report.passes then
      { acc with
        seenCodes := acc.seenCodes ++ [r.code]
        softCodes := if tri.soft then acc.softCodes ++ [r.code] else acc.softCodes
        passedCodes := acc.passedCodes ++ [r.code]
        items := acc.items ++
          [{ code := r.code, display := r.title, fee := r.fee.orElse (fun _ => r.meta.schedule_fee),
             score := r.match_score, verify := tri.report, group := r.meta.group }] }
    else
      { acc with
        seenCodes := acc.seenCodes ++ [r.code]
        failedCodes := acc.failedCodes ++ [r.code] }

/-- `verifyBatch`: build a rule for each non-empty-coded result, verify it,
and partition (`resolveTimeConflicts` is the identity seam). -/
def verifyBatch (facts : NoteFacts) (results : List RResult) : BatchOut :=
  results.foldl (verifyBatchStep facts) ⟨[], [], [], [], []⟩

/-- The JS `Map` upsert used to merge `accepted` by code (last writer wins
on the value, first writer on the position). -/
def upsert (m : List (String × VItem)) (it : VItem) : List (String × VItem) :=
  if m.any (fun p => p.1 = it.code) then
    m.map (fun p => if p.1 = it.code then (p.1, it) else p)
  else m ++ [(it.code, it)]

def mergeByCode (l : List VItem) : List VItem :=
  (l.foldl upsert []).map (fun p => p.2)

/-- `Set`-style accumulation preserving insertion order. -/
def addAll (l : List String) (cs : List String) : List String :=
  cs.foldl (fun acc c => if acc.contains c then acc else acc ++ [c]) l

/-- Orchestrator state (the slice of `AgentState` the claims are about;
`note`, `enhancedQuery`, `reflectionConstraints` etc. only shape the query
strings handed to the retrieval oracle). -/
structure AgentSt where
  topN : Nat
  iterations : Nat
  done : Bool
  bannedCodes : List String
  accepted : List VItem
  seenCodes : List String
deriving Repr

/-- The `verify` node: verify the proposal, merge `accepted` (dedup by
code), union every failed/passed/seen code into `bannedCodes`, set `done`. -/
def verifyNode (facts : NoteFacts) (s : AgentSt) (results : List RResult) : AgentSt :=
  let vetted := verifyBatch facts results
  let currentPass := vetted.items
  let accepted := mergeByCode (s.accepted ++ currentPass)
  let bannedCodes := addAll s.bannedCodes
    (vetted.failedCodes ++ vetted.passedCodes ++ vetted.seenCodes)
  let noNew := currentPass.isEmpty && vetted.failedCodes.isEmpty
  let done := noNew || accepted.length ≥ s.topN
  { s with
    accepted := accepted
    bannedCodes := bannedCodes
    done := done
    seenCodes := vetted.seenCodes }

/-- One retriever attempt inside the unique-collection loop of
`propose`/`refine_propose`. -/
def mergeStep (banned : List String) (acc : List String × List RResult) (r : RResult) :
    List String × List RResult :=
  if r.code = "" then acc
  else if acc.1.contains r.code || banned.contains r.code then acc
  else (acc.1 ++ [r.code], acc.2 ++ [r])

/-- The up-to-`maxTries` collection loop: process one attempt's results,
stop early once `k` unique non-banned results are collected. -/
def mergeAttempts (banned : List String) (k : Nat) :
    List (List RResult) → List String → List RResult → List RResult
  | [], _, merged => merged
  | arr :: rest, seen, merged =>
    let acc := arr.foldl (mergeStep banned) (seen, merged)
    if acc.2.length ≥ k then acc.2
    else mergeAttempts banned k rest acc.1 acc.2

/-- A whole propose round: three attempts, then the final re-filter
(`code && !banned.includes(code)`). -/
def mergeLoop (banned : List String) (k : Nat) (attempts : List (List RResult)) :
    List RResult :=
  (mergeAttempts banned k attempts [] []).filter
    (fun r => r.code ≠ "" && !banned.contains r.code)

/-- `Number(s.topN || 5)` of the propose nodes. -/
def topOr5 (topN : Nat) : Nat :=
  if topN = 0 then 5 else topN

/-- Per-round log: the banned set the round was issued against, the proposal
it produced, and the state after the following `verify` node. -/
structure RoundLog where
  bannedBefore : List String
  proposal : List RResult
  after : AgentSt

/-- The `verify → critic → refine_propose → verify` loop with explicit fuel
(the graph engine imposes only its recursion limit; the theorems below show
two units of fuel already reach the fixed point).  The `critic` node only
computes constraint tokens for the retrieval oracle. -/
def deepLoop (oracle : Nat → Nat → List RResult) (facts : NoteFacts) :
    Nat → AgentSt → AgentSt × List RoundLog
  | 0, s => (s, [])
  | fuel + 1, s =>
    if s.done || s.iterations ≥ 2 then (s, [])
    else
      let banned := s.bannedCodes
      let round := s.iterations + 1
      let p := mergeLoop banned (topOr5 s.topN) [oracle round 0, oracle round 1, oracle round 2]
      let s2 := { s with iterations := round }
      let s3 := verifyNode facts s2 p
      let rec' := deepLoop oracle facts fuel s3
      (rec'.1, ⟨banned, p, s3⟩ :: rec'.2)

/-- A whole Deep-mode run: clamp `top` to `[1,10]`, initial propose with
`topN + 3`, verify, then the refinement loop.  Returns the final state and
the per-round log. -/
def deepRun (oracle : Nat → Nat → List RResult) (facts : NoteFacts) (top : Nat) (fuel : Nat) :
    AgentSt × List RoundLog :=
  let topN := min (max top 1) 10
  let s0 : AgentSt :=
    { topN := topN, iterations := 0, done := false, bannedCodes := [], accepted := [],
      seenCodes := [] }
  let p0 := mergeLoop s0.bannedCodes (topOr5 topN + 3) [oracle 0 0, oracle 0 1, oracle 0 2]
  let s1 := verifyNode facts s0 p0
  let r := deepLoop oracle facts fuel s1
  (r.1, ⟨s0.bannedCodes, p0, s1⟩ :: r.2)

/-- The emitted items: `accepted.slice(0, initialTop)`. -/
def deepRunItems (oracle : Nat → Nat → List RResult) (facts : NoteFacts) (top fuel : Nat) :
    List VItem :=
  ((deepRun oracle facts top fuel).1.accepted).take (min (max top 1) 10)

/-- `buildRefineHints` (the `critic` node's constraint synthesis). -/
def buildRefineHints (facts : NoteFacts) (failedCodes : List String) :
    List String × List String :=
  let must : List String :=
    (match facts.duration_min with
     | some d =>
       if d < 6 then ["duration:<6"]
       else if d < 20 then ["duration:6-20"]
       else if d < 40 then ["duration:20-40"]
       else ["duration:>=40"]
     | none => [])
    ++ (match facts.modality with
        | some m => ["modality:" ++ modalityStr m]
        | none => [])
    ++ (match facts.setting with
        | some st => if st ≠ .other then ["setting:" ++ settingStr st] else []
        | none => [])
    ++ (match facts.specialty with
        | some sp => if sp ≠ "" then ["specialty:" ++ sp] else []
        | none => [])
    ++ (match facts.first_or_review with
        | some v => ["visit:" ++ visitStr v]
        | none => [])
  (must, failedCodes.map (fun c => "code:" ++ c))

end MbsPro


namespace MbsPro

/-! ## Basic lemmas -/

theorem startsWithL_append (p l m : List Char) (h : startsWithL p l = true) :
    startsWithL p (l ++ m) = true := by
  induction p generalizing l with
  | nil => rfl
  | cons c cs ih =>
    cases l with
    | nil => simp [startsWithL] at h
    | cons d ds =>
      simp [startsWithL] at h ⊢
      exact ⟨h.1, ih ds h.2⟩

theorem strStartsWith_concat (pre l rest : String) (h : strStartsWith l pre = true) :
    strStartsWith (l ++ rest) pre = true := by
  unfold strStartsWith at h ⊢
  rw [show (l ++ rest).toList = l.toList ++ rest.toList from String.data_append l rest]
  exact startsWithL_append _ _ _ h

/-! ## C1: the time-window check against interval semantics

Spec-side interval semantics over `ℚ`, honouring the open/closed endpoint
flags of the note facts and of the rule interval (this is the notion of
containment / intersection the specification describes; the code's
`checkTimeWindow` compares numeric endpoints only).
-/

/-- Membership of a rational in the note's duration interval, with the
claim's defaults (`duration_min` null ↦ 0, `duration_max` null ↦ +∞) and
the note's inclusivity flags (defaulting to inclusive). -/
def memNoteInterval (facts : NoteFacts) (q : ℚ) : Prop :=
  (if facts.duration_min_inclusive.getD true then ((facts.duration_min.getD 0 : Int) : ℚ) ≤ q
   else ((facts.duration_min.getD 0 : Int) : ℚ) < q)
  ∧ (match facts.duration_max with
     | none => True
     | some hi => if facts.duration_max_inclusive.getD true then q ≤ (hi : ℚ) else q < (hi : ℚ))

/-- Membership of a rational in a rule `Interval`, honouring its flags
(null endpoints unbounded). -/
def memRuleInterval (w : Interval) (q : ℚ) : Prop :=
  (match w.min with
   | none => True
   | some lo => if w.left_closed then ((lo : Int) : ℚ) ≤ q else ((lo : Int) : ℚ) < q)
  ∧ (match w.max with
     | none => True
     | some hi => if w.right_closed then q ≤ (hi : ℚ) else q < (hi : ℚ))

/-- A note that says "the consultation took exactly 40 minutes". -/
def facts40 : NoteFacts :=
  { duration_min := some 40, duration_max := some 40,
    duration_min_inclusive := some true, duration_max_inclusive := some true,
    modality := none, after_hours := none, setting := none, first_or_review := none,
    referral_present := none, specialty := none, age := none, keywords := [],
    is_gp := none, is_emergency := none, is_specialist := none }

/-- A rule whose window is `[20,40)`. -/
def rule2040 : ItemRule :=
  { code := "X", time_window := some ⟨some 20, some 40, true, false⟩ }

/-- C1 counterexample: the note interval `[40,40]` is *not* contained in the
rule interval `[20,40)` — the two do not even intersect — yet the code's
time-window check returns PASS, because `checkTimeWindow` compares numeric
endpoints only (`fMin ≥ rMin && fMax ≤ rMax`) and ignores every
open/closed endpoint flag. -/
theorem c1_counterexample :
    (triTime facts40 rule2040).1 = .PASS
      ∧ ¬ (∀ q : ℚ, memNoteInterval facts40 q →
            memRuleInterval ⟨some 20, some 40, true, false⟩ q)
      ∧ ∀ q : ℚ, ¬ (memNoteInterval facts40 q
            ∧ memRuleInterval ⟨some 20, some 40, true, false⟩ q) := by
  refine ⟨by decide, ?_, ?_⟩
  · intro hall
    have h40 : memNoteInterval facts40 40 := by
      constructor
      · simp [facts40]
      · simp [facts40]
    have h := (hall 40 h40).2
    simp only [memRuleInterval] at h
    norm_num at h
  · rintro q ⟨hf, hr⟩
    have hq : q = 40 := by
      rcases hf with ⟨hlo, hhi⟩
      simp only [facts40, Option.getD] at hlo hhi
      norm_num at hlo hhi
      linarith
    have h := hr.2
    rw [hq] at h
    simp only [memRuleInterval] at h
    norm_num at h

/-! ### The amended trichotomy actually implemented by `checkTimeWindow` -/

/-- `fMax ≤ rMax` over `Int ∪ {+∞}` (Prop side of `leOI`). -/
def endLE (a b : Option Int) : Prop :=
  match a, b with
  | _, none => True
  | none, some _ => False
  | some x, some y => x ≤ y

/-- `x < rMax` (Prop side of `ltOpt`). -/
def ltE (x : Int) (b : Option Int) : Prop :=
  match b with
  | none => True
  | some y => x < y

/-- `fMax > y` (Prop side of `gtOI`). -/
def gtE (a : Option Int) (y : Int) : Prop :=
  match a with
  | none => True
  | some x => y < x

/-- Endpoint containment as computed by the code: `rMin ≤ fMin ∧ fMax ≤ rMax`
with nulls defaulted to `0` / `+∞` and all inclusivity flags ignored. -/
def timeInside (facts : NoteFacts) (w : Interval) : Prop :=
  w.min.getD 0 ≤ facts.duration_min.getD 0 ∧ endLE facts.duration_max w.max

/-- Endpoint overlap as computed by the code: `fMin < rMax ∧ rMin < fMax`. -/
def timeOverlap (facts : NoteFacts) (w : Interval) : Prop :=
  ltE (facts.duration_min.getD 0) w.max ∧ gtE facts.duration_max (w.min.getD 0)

theorem leOI_iff (a b : Option Int) : leOI a b = true ↔ endLE a b := by
  cases a <;> cases b <;> simp [leOI, endLE]

theorem ltOpt_iff (x : Int) (b : Option Int) : ltOpt x b = true ↔ ltE x b := by
  cases b <;> simp [ltOpt, ltE]

theorem gtOI_iff (a : Option Int) (y : Int) : gtOI a y = true ↔ gtE a y := by
  cases a <;> simp [gtOI, gtE]

theorem triTime_of_none (facts : NoteFacts) (rule : ItemRule)
    (h : rule.time_window = none) : triTime facts rule = (.PASS, "") := by
  simp [triTime, checkTimeWindow, h]
  decide

theorem triTime_of_inside (facts : NoteFacts) (rule : ItemRule) (w : Interval)
    (hw : rule.time_window = some w)
    (hin : (decide (facts.duration_min.getD 0 ≥ w.min.getD 0)
      && leOI facts.duration_max w.max) = true) :
    triTime facts rule = (.PASS, "") := by
  simp only [triTime, checkTimeWindow, hw, hin, if_true]
  decide

theorem triTime_of_soft (facts : NoteFacts) (rule : ItemRule) (w : Interval)
    (hw : rule.time_window = some w)
    (hin : (decide (facts.duration_min.getD 0 ≥ w.min.getD 0)
      && leOI facts.duration_max w.max) = false)
    (hov : intervalsOverlap (facts.duration_min.getD 0) facts.duration_max
      (w.min.getD 0) w.max = true) :
    triTime facts rule = (.SOFT, "soft_pass_overlap") := by
  simp only [triTime, checkTimeWindow, hw, hin, hov, if_true, Bool.false_eq_true, if_false]
  decide

theorem triTime_of_fail (facts : NoteFacts) (rule : ItemRule) (w : Interval)
    (hw : rule.time_window = some w)
    (hin : (decide (facts.duration_min.getD 0 ≥ w.min.getD 0)
      && leOI facts.duration_max w.max) = false)
    (hov : intervalsOverlap (facts.duration_min.getD 0) facts.duration_max
      (w.min.getD 0) w.max = false) :
    (triTime facts rule).1 = .FAIL := by
  have hsw : strStartsWith ("duration [" ++ toString (facts.duration_min.getD 0) ++ ","
      ++ showMaxE facts.duration_max ++ ") not in rule [" ++ toString (w.min.getD 0) ++ ","
      ++ showMaxE w.max ++ ")") "duration" = true := by
    repeat apply strStartsWith_concat
    decide
  simp only [triTime, checkTimeWindow, hw, hin, hov, Bool.false_eq_true, if_false, hsw,
    Bool.not_false, Bool.and_self, if_true]

/-- C1 amended: what the time-window check actually decides.  With
`fMin := duration_min ?? 0`, `fMax := duration_max ?? +∞`,
`rMin := w.min ?? 0`, `rMax := w.max ?? +∞`: PASS iff the rule has no
window or `rMin ≤ fMin ∧ fMax ≤ rMax`; SOFT with details
`soft_pass_overlap` iff that containment fails but `fMin < rMax ∧
rMin < fMax`; FAIL otherwise; and a rule without a window is PASS for every
note.  The open/closed endpoint flags of both intervals play no role. -/
theorem c1_amended (facts : NoteFacts) (rule : ItemRule) :
    (triTime facts rule = (.PASS, "") ↔
      rule.time_window = none ∨ ∃ w, rule.time_window = some w ∧ timeInside facts w)
    ∧ (triTime facts rule = (.SOFT, "soft_pass_overlap") ↔
      ∃ w, rule.time_window = some w ∧ ¬ timeInside facts w ∧ timeOverlap facts w)
    ∧ ((triTime facts rule).1 = .FAIL ↔
      ∃ w, rule.time_window = some w ∧ ¬ timeInside facts w ∧ ¬ timeOverlap facts w) := by
  cases hw : rule.time_window with
  | none =>
    have ht := triTime_of_none facts rule hw
    refine ⟨by simp [ht], by simp [ht], by simp [ht]⟩
  | some w =>
    have hiff : (decide (facts.duration_min.getD 0 ≥ w.min.getD 0)
        && leOI facts.duration_max w.max) = true ↔ timeInside facts w := by
      rw [Bool.and_eq_true, decide_eq_true_iff, leOI_iff]
      unfold timeInside
      exact and_congr_left (fun _ => ge_iff_le)
    have hoiff : intervalsOverlap (facts.duration_min.getD 0) facts.duration_max
        (w.min.getD 0) w.max = true ↔ timeOverlap facts w := by
      rw [intervalsOverlap, Bool.and_eq_true, ltOpt_iff, gtOI_iff]
      rfl
    by_cases hin : (decide (facts.duration_min.getD 0 ≥ w.min.getD 0)
        && leOI facts.duration_max w.max) = true
    · have ht := triTime_of_inside facts rule w hw hin
      have hins : timeInside facts w := hiff.mp hin
      refine ⟨?_, ?_, ?_⟩
      · simp only [ht, hw, true_iff]
        exact Or.inr ⟨w, rfl, hins⟩
      · simp only [ht, hw]
        constructor
        · intro h; simp at h
        · rintro ⟨w', hw', hni, -⟩
          cases hw'
          exact absurd hins hni
      · simp only [ht, hw]
        constructor
        · intro h; simp at h
        · rintro ⟨w', hw', hni, -⟩
          cases hw'
          exact absurd hins hni
    · have hni : ¬ timeInside facts w := fun h => hin (hiff.mpr h)
      have hinf : (decide (facts.duration_min.getD 0 ≥ w.min.getD 0)
          && leOI facts.duration_max w.max) = false := by
        exact Bool.not_eq_true _ ▸ Bool.of_not_eq_true hin
      by_cases hov : intervalsOverlap (facts.duration_min.getD 0) facts.duration_max
          (w.min.getD 0) w.max = true
      · have ht := triTime_of_soft facts rule w hw hinf hov
        have hovp : timeOverlap facts w := hoiff.mp hov
        refine ⟨?_, ?_, ?_⟩
        · simp only [ht, hw]
          constructor
          · intro h; simp at h
          · rintro (h | ⟨w', hw', hi⟩)
            · cases h
            · cases hw'
              exact absurd hi hni
        · simp only [ht, hw, true_iff]
          exact ⟨w, rfl, hni, hovp⟩
        · simp only [ht, hw]
          constructor
          · intro h; simp at h
          · rintro ⟨w', hw', -, hno⟩
            cases hw'
            exact absurd hovp hno
      · have hovf : intervalsOverlap (facts.duration_min.getD 0) facts.duration_max
            (w.min.getD 0) w.max = false := by
          exact Bool.not_eq_true _ ▸ Bool.of_not_eq_true hov
        have hno : ¬ timeOverlap facts w := fun h => hov (hoiff.mpr h)
        have ht := triTime_of_fail facts rule w hw hinf hovf
        refine ⟨?_, ?_, ?_⟩
        · constructor
          · intro h
            exact absurd (ht.symm.trans (congrArg Prod.fst h)) (by decide)
          · rintro (h | ⟨w', hw', hi⟩)
            · cases h
            · cases hw'
              exact absurd hi hni
        · constructor
          · intro h
            exact absurd (ht.symm.trans (congrArg Prod.fst h)) (by decide)
          · rintro ⟨w', hw', -, hovp⟩
            cases hw'
            exact absurd hovp hno
        · exact ⟨fun _ => ⟨w, rfl, hni, hno⟩, fun _ => ht⟩

/-! ## C2: shape invariants of the verification report -/

/-- C2: for every note/rule pair, the report's `passes` is true iff no
tri-state check FAILed; every flattened check has `pass = (result ≠ FAIL)`;
and a SOFT check flattens to `pass = true` with non-empty `details`. -/
theorem c2_report_invariants (note : NoteFacts) (rule : ItemRule) :
    (verifyOneTri note rule).report.checks = (triChecksOf note rule).map flattenCheck
    ∧ ((verifyOneTri note rule).report.passes = true ↔
        ∀ c ∈ triChecksOf note rule, c.result ≠ .FAIL)
    ∧ ∀ c ∈ triChecksOf note rule,
        ((flattenCheck c).pass = true ↔ c.result ≠ .FAIL)
        ∧ (c.result = .SOFT → (flattenCheck c).pass = true ∧ (flattenCheck c).details ≠ "") := by
  refine ⟨rfl, ?_, ?_⟩
  · simp only [verifyOneTri, List.any_eq_true, Bool.not_eq_true']
    constructor
    · intro h c hc hfail
      have : (triChecksOf note rule).any (fun c => decide (c.result = .FAIL)) = true :=
        List.any_eq_true.mpr ⟨c, hc, by simp [hfail]⟩
      rw [this] at h
      cases h
    · intro h
      rw [List.any_eq_false.mpr]
      intro c hc
      simp [h c hc]
  · intro c _
    refine ⟨?_, fun h => ⟨?_, ?_⟩⟩
    · rw [show (flattenCheck c).pass = decide (c.result ≠ .FAIL) from rfl]
      exact decide_eq_true_iff
    · rw [show (flattenCheck c).pass = decide (c.result ≠ .FAIL) from rfl, h]
      decide
    · rw [show (flattenCheck c).details
        = (if c.result = .SOFT then (if c.details = "" then "uncertain" else c.details)
           else c.details) from rfl, h]
      simp only [reduceIte]
      split
      · decide
      · assumption

/-- C2 witness: the invariants evaluated at a concrete note/rule pair. -/
theorem c2_witness :
    ((verifyOneTri facts40 rule2040).report.passes = true)
    ∧ ((flattenCheck ⟨"time_window", .PASS, ""⟩).pass = true) := by
  have h := c2_report_invariants facts40 rule2040
  refine ⟨h.2.1.mpr (by decide), ?_⟩
  exact ((h.2.2 ⟨"time_window", .PASS, ""⟩ (by decide)).1).mpr (by decide)

/-! ## C7: "A–B min" ranges are shadowed by the bare "N min" branch -/

/-- C7 counterexample: the note "consult 19–22 minutes" does contain the
range `19–22` (the range regex matches it), and no duration modifier words,
yet the extractor returns the point interval `[22,22]`: the bare
`\b(\d{1,3})\s*min(?:ute)?s?\b` branch is tried first and matches the
"22 minutes" inside the range.  Against the rule window `[20,40)` the
time-window check is then PASS, not SOFT. -/
theorem c7_counterexample :
    mRange (lowerL "consult 19–22 minutes".toList) = some (19, 22)
    ∧ (extractNoteFactsDeterministic "consult 19–22 minutes").duration_min = some 22
    ∧ (extractNoteFactsDeterministic "consult 19–22 minutes").duration_max = some 22
    ∧ (triTime (extractNoteFactsDeterministic "consult 19–22 minutes") rule2040).1 = .PASS := by
  refine ⟨by decide, by decide, by decide, by decide⟩

/-- C7 amended: whenever the bare "N min" pattern matches (as it does for
every "A–B minutes" utterance followed by a word boundary) and no modifier
token occurs in the note, the extractor returns the point interval `[N,N]`
of the bare match — for "consult 19–22 minutes" that is `[22,22]`, so the
rule window `[20,40)` gives PASS rather than SOFT. -/
theorem c7_amended (note : String)
    (hex : mExact (lowerL note.toList) = none)
    (h1 : includesS (lowerL note.toList) "at least" = false)
    (h2 : includesS (lowerL note.toList) "more than" = false)
    (h3 : includesS (lowerL note.toList) "less than" = false)
    (h4 : includesS (lowerL note.toList) "≥" = false)
    (h5 : includesS (lowerL note.toList) ">=" = false)
    (h6 : includesS (lowerL note.toList) ">" = false)
    (n : Nat) (hst : mStandalone (lowerL note.toList) = some n) :
    (extractNoteFactsDeterministic note).duration_min = some n
    ∧ (extractNoteFactsDeterministic note).duration_max = some n
    ∧ (extractNoteFactsDeterministic note).duration_min_inclusive = some true
    ∧ (extractNoteFactsDeterministic note).duration_max_inclusive = some true := by
  have hds : durationSeed (lowerL note.toList) =
      (some (some (n : Int)), some (some (n : Int)), some (some true), some (some true)) := by
    simp only [durationSeed, hex, hst, h1, h2, h3, h4, h5, h6, Bool.not_false,
      Bool.true_and, Bool.and_true, Bool.and_self, if_true, reduceIte]
  refine ⟨?_, ?_, ?_, ?_⟩
  · rw [show (extractNoteFactsDeterministic note).duration_min
        = ((durationSeed (lowerL note.toList)).1).join from rfl, hds]
    rfl
  · rw [show (extractNoteFactsDeterministic note).duration_max
        = ((durationSeed (lowerL note.toList)).2.1).join from rfl, hds]
    rfl
  · rw [show (extractNoteFactsDeterministic note).duration_min_inclusive
        = (((durationSeed (lowerL note.toList)).2.2.1).join
            <|> (if ((durationSeed (lowerL note.toList)).1).join.isSome then some true else none))
          from rfl, hds]
    rfl
  · rw [show (extractNoteFactsDeterministic note).duration_max_inclusive
        = (((durationSeed (lowerL note.toList)).2.2.2).join
            <|> (if ((durationSeed (lowerL note.toList)).2.1).join.isSome then some false else none))
          from rfl, hds]
    rfl

/-- C7 amended witness at the spec's own scenario input. -/
theorem c7_amended_witness :
    mStandalone (lowerL "consult 19–22 minutes".toList) = some 22
    ∧ (extractNoteFactsDeterministic "consult 19–22 minutes").duration_min = some 22
    ∧ (extractNoteFactsDeterministic "consult 19–22 minutes").duration_max = some 22 :=
  ⟨by decide,
   (c7_amended "consult 19–22 minutes" (by decide) (by decide) (by decide) (by decide)
     (by decide) (by decide) (by decide) 22 (by decide)).1,
   (c7_amended "consult 19–22 minutes" (by decide) (by decide) (by decide) (by decide)
     (by decide) (by decide) (by decide) 22 (by decide)).2.1⟩

/-! ## C8: `duration_min ≤ duration_max` can be violated -/

/-- C8 counterexample: the note "at least 30 minutes and less than 20"
yields `duration_min = 30 > 20 = duration_max` (the captured pair is copied
verbatim), so the invariant fails. -/
theorem c8_counterexample :
    (extractNoteFactsDeterministic "at least 30 minutes and less than 20").duration_min = some 30
    ∧ (extractNoteFactsDeterministic "at least 30 minutes and less than 20").duration_max = some 20
    ∧ ¬((30 : Int) ≤ 20) := by
  refine ⟨by decide, by decide, by decide⟩

theorem durationSeedRest_le (t : List Char)
    (h1 : ∀ a b : Nat, mRange t = some (a, b) → a ≤ b)
    (h2 : ∀ a b : Nat, mAtLeastLess t = some (a, b) → a ≤ b) :
    ∀ x y : Int, ((durationSeed.durationSeedRest t).1).join = some x →
      ((durationSeed.durationSeedRest t).2.1).join = some y → x ≤ y := by
  intro x y hx hy
  cases hr : mRange t with
  | some p =>
    obtain ⟨a, b⟩ := p
    have hab := h1 a b hr
    simp only [durationSeed.durationSeedRest, hr, Option.join] at hx hy
    cases hx; cases hy
    exact_mod_cast hab
  | none =>
    cases hal : mAtLeastLess t with
    | some p =>
      obtain ⟨a, b⟩ := p
      have hab := h2 a b hal
      simp only [durationSeed.durationSeedRest, hr, hal, Option.join] at hx hy
      cases hx; cases hy
      exact_mod_cast hab
    | none =>
      cases ham : mAtLeastMin t with
      | some n =>
        simp [durationSeed.durationSeedRest, hr, hal, ham, Option.join] at hy
      | none =>
        cases hmt : mMoreThan t with
        | some n =>
          simp [durationSeed.durationSeedRest, hr, hal, ham, hmt, Option.join] at hy
        | none =>
          cases hlt : mLessThan t with
          | some n =>
            simp only [durationSeed.durationSeedRest, hr, hal, ham, hmt, hlt, Option.join]
              at hx hy
            cases hx; cases hy
            omega
          | none =>
            cases hpm : mPlusMin t with
            | some n =>
              simp [durationSeed.durationSeedRest, hr, hal, ham, hmt, hlt, hpm,
                Option.join] at hy
            | none =>
              simp [durationSeed.durationSeedRest, hr, hal, ham, hmt, hlt, hpm,
                Option.join] at hx

/-- C8 amended: `duration_min ≤ duration_max` (both defined) holds for every
note whose range-shaped utterances are ordered — i.e. whenever the "A–B min"
and "at least A … and less than B" patterns (the only two branches that copy
a pair from the text) capture pairs with `A ≤ B`.  The other branches give
point intervals, `[max 0 (A−1), A]`, or leave `duration_max` null. -/
theorem c8_amended (note : String)
    (h1 : ∀ a b : Nat, mRange (lowerL note.toList) = some (a, b) → a ≤ b)
    (h2 : ∀ a b : Nat, mAtLeastLess (lowerL note.toList) = some (a, b) → a ≤ b) :
    ∀ x y : Int, (extractNoteFactsDeterministic note).duration_min = some x →
      (extractNoteFactsDeterministic note).duration_max = some y → x ≤ y := by
  intro x y hx hy
  rw [show (extractNoteFactsDeterministic note).duration_min
      = ((durationSeed (lowerL note.toList)).1).join from rfl] at hx
  rw [show (extractNoteFactsDeterministic note).duration_max
      = ((durationSeed (lowerL note.toList)).2.1).join from rfl] at hy
  cases hex : mExact (lowerL note.toList) with
  | some n =>
    simp only [durationSeed, hex, Option.join] at hx hy
    cases hx; cases hy
    exact le_refl _
  | none =>
    cases hst : mStandalone (lowerL note.toList) with
    | some n =>
      simp only [durationSeed, hex, hst] at hx hy
      by_cases hc : (!includesS (lowerL note.toList) "at least"
          && !includesS (lowerL note.toList) "more than"
          && !includesS (lowerL note.toList) "less than"
          && !includesS (lowerL note.toList) "≥"
          && !includesS (lowerL note.toList) ">="
          && !includesS (lowerL note.toList) ">") = true
      · rw [if_pos hc] at hx hy
        simp only [Option.join] at hx hy
        cases hx; cases hy
        exact le_refl _
      · rw [if_neg hc] at hx hy
        exact durationSeedRest_le (lowerL note.toList) h1 h2 x y hx hy
    | none =>
      simp only [durationSeed, hex, hst] at hx hy
      exact durationSeedRest_le (lowerL note.toList) h1 h2 x y hx hy

/-- C8 amended witness on a note with an exact duration (both range
hypotheses hold vacuously). -/
theorem c8_amended_witness :
    (extractNoteFactsDeterministic "consult lasted exactly 25 minutes").duration_min = some 25
    ∧ (extractNoteFactsDeterministic "consult lasted exactly 25 minutes").duration_max = some 25
    ∧ (25 : Int) ≤ 25 := by
  refine ⟨by decide, by decide, ?_⟩
  exact c8_amended "consult lasted exactly 25 minutes"
    (fun a b h => by
      rw [show mRange (lowerL "consult lasted exactly 25 minutes".toList) = none from by decide]
        at h
      cases h)
    (fun a b h => by
      rw [show mAtLeastLess (lowerL "consult lasted exactly 25 minutes".toList) = none
          from by decide] at h
      cases h)
    25 25 (by decide) (by decide)

/-! ## C9: structured duration metadata overrides the textual parse -/

/-- C9: if the catalog metadata supplies `duration_min_minutes` or
`duration_max_minutes`, the rule's `time_window` is built from the metadata
(inclusivity defaulting to left-closed / right-open) and does not depend on
the description; otherwise it is the textual parse of the description. -/
theorem c9_meta_overrides (code desc : String) (meta : MetaRec) :
    ((meta.duration_min_minutes.isSome = true ∨ meta.duration_max_minutes.isSome = true) →
      (buildItemRuleFromDesc code desc meta).time_window =
        some ⟨meta.duration_min_minutes, meta.duration_max_minutes,
          meta.duration_min_inclusive.getD true, meta.duration_max_inclusive.getD false⟩)
    ∧ (meta.duration_min_minutes = none → meta.duration_max_minutes = none →
      (buildItemRuleFromDesc code desc meta).time_window = parseIntervalFromDesc desc) := by
  constructor
  · intro h
    have hc : (meta.duration_min_minutes.isSome || meta.duration_max_minutes.isSome) = true := by
      rcases h with h | h <;> simp [h]
    simp [buildItemRuleFromDesc, hc]
  · intro h1 h2
    simp [buildItemRuleFromDesc, h1, h2]

/-- C9 witness: with `duration_min_minutes = 60` in the metadata the window
is `[60,∞)` even though the description parses to `[20,40)`; with empty
metadata the description's parse is used. -/
theorem c9_meta_overrides_witness :
    (buildItemRuleFromDesc "44" "at least 20 minutes and less than 40"
        { duration_min_minutes := some 60 }).time_window = some ⟨some 60, none, true, false⟩
    ∧ parseIntervalFromDesc "at least 20 minutes and less than 40"
        = some ⟨some 20, some 40, true, false⟩
    ∧ (buildItemRuleFromDesc "44" "at least 20 minutes and less than 40" {}).time_window
        = parseIntervalFromDesc "at least 20 minutes and less than 40" :=
  ⟨(c9_meta_overrides "44" "at least 20 minutes and less than 40"
      { duration_min_minutes := some 60 }).1 (Or.inl (by decide)),
   by decide,
   (c9_meta_overrides "44" "at least 20 minutes and less than 40" {}).2 rfl rfl⟩

/-! ## C10: the deterministic fact-extraction paths normalize `setting` -/

/-- C10: on the heuristic-only path and the LLM-failure fallback path (both
are `extractNoteFactsDeterministic`), the returned `setting` is never null —
it is `other` when no setting pattern matched — and `keywords` is always the
(possibly empty) heuristic keyword list. -/
theorem c10_setting_normalized (note : String) :
    (extractNoteFactsDeterministic note).setting.isSome = true
    ∧ ((extractNoteFactsHeuristic note).setting = none →
        (extractNoteFactsDeterministic note).setting = some .other)
    ∧ (extractNoteFactsDeterministic note).keywords = keywordsOf (lowerL note.toList) := by
  refine ⟨?_, ?_, rfl⟩
  · rw [show (extractNoteFactsDeterministic note).setting
        = some ((((extractNoteFactsHeuristic note).setting).join).getD .other) from rfl]
    rfl
  · intro h
    rw [show (extractNoteFactsDeterministic note).setting
        = some ((((extractNoteFactsHeuristic note).setting).join).getD .other) from rfl, h]
    rfl

/-- C10 witness at a note with no setting pattern. -/
theorem c10_setting_normalized_witness :
    (extractNoteFactsHeuristic "hello").setting = none
    ∧ (extractNoteFactsDeterministic "hello").setting = some .other :=
  ⟨by decide, (c10_setting_normalized "hello").2.1 (by decide)⟩

/-! ## C6: the local result filter ignores the constraint-derived bans -/

/-- C6 counterexample: the query carries `-code:123`, so the banned set
accumulated by `parseConstraints` is `["123"]`; with no caller-supplied
`excludeCodes` the local filter is skipped entirely, and a synthesized
result with code `123` — a member of `excludeCodes ∪ banned` — is returned
unchanged. -/
theorem c6_counterexample :
    (parseConstraints "note\n#constraints\n-code:123").bannedCodes = ["123"]
    ∧ (queryRagPostprocess [] (fun _ => none) (fun _ => none)
        [{ itemNum := "123", title := "t" }]).map (fun r => r.itemNum) = ["123"]
    ∧ "123" ∈ ([] : List String) ++ (parseConstraints "note\n#constraints\n-code:123").bannedCodes := by
  refine ⟨by decide, by decide, by decide⟩

/-- C6 amended: the synthesized results are re-filtered locally against the
caller-supplied `excludeCodes` only — and only when that list is non-empty —
so in that case every returned result has a non-empty code outside
`excludeCodes`.  The `must_not code:X` bans parsed from the query reach the
synthesis prompt but are not enforced by the local filter. -/
theorem c6_amended (excludeCodes : List String) (scoreOf : String → Option Int)
    (metaOf : String → Option MetaRec) (results : List SynthResult)
    (hne : excludeCodes ≠ []) :
    ∀ r ∈ queryRagPostprocess excludeCodes scoreOf metaOf results,
      r.itemNum ∉ excludeCodes ∧ r.itemNum ≠ "" := by
  intro r hr
  simp only [queryRagPostprocess, attachMeta, List.mem_map] at hr
  obtain ⟨item, hitem, hmap⟩ := hr
  have hnum : r.itemNum = item.itemNum := by rw [← hmap]
  have hni : excludeCodes.isEmpty = false := by
    cases excludeCodes with
    | nil => exact absurd rfl hne
    | cons a l => rfl
  simp only [localFilterResults, hni, Bool.false_eq_true, if_false, List.mem_filter] at hitem
  have hcond := hitem.2
  rw [Bool.and_eq_true] at hcond
  refine ⟨?_, ?_⟩
  · rw [hnum]
    intro hmem
    have hc2 := hcond.2
    rw [Bool.not_eq_true'] at hc2
    have hc3 : excludeCodes.contains item.itemNum = true := by simpa using hmem
    rw [hc3] at hc2
    cases hc2
  · rw [hnum]
    simpa using hcond.1

/-- C6 amended witness on a concrete exclude list and result set. -/
theorem c6_amended_witness :
    ((queryRagPostprocess ["9"] (fun _ => none) (fun _ => none)
        [{ itemNum := "9", title := "a" }, { itemNum := "5", title := "b" }]).map
      (fun r => r.itemNum)) = ["5"]
    ∧ ("5" ∉ (["9"] : List String) ∧ "5" ≠ "") := by
  refine ⟨by decide, ?_⟩
  have h := c6_amended ["9"] (fun _ => none) (fun _ => none)
    [{ itemNum := "9", title := "a" }, { itemNum := "5", title := "b" }] (by decide)
  have hm : ({ itemNum := "5", title := "b", match_reason := "", fee := none,
               match_score := none, meta := none, description := some "b" } : SynthResult)
      ∈ queryRagPostprocess ["9"] (fun _ => none) (fun _ => none)
        [{ itemNum := "9", title := "a" }, { itemNum := "5", title := "b" }] := by decide
  exact h _ hm

/-! ## Orchestration lemmas (C3, C4, C5) -/

theorem mergeLoop_mem (banned : List String) (k : Nat) (attempts : List (List RResult)) :
    ∀ r ∈ mergeLoop banned k attempts, r.code ∉ banned ∧ r.code ≠ "" := by
  intro r hr
  rw [mergeLoop, List.mem_filter] at hr
  have hc := hr.2
  rw [Bool.and_eq_true] at hc
  refine ⟨?_, by simpa using hc.1⟩
  intro hmem
  have h1 := hc.2
  rw [Bool.not_eq_true'] at h1
  have h2 : banned.contains r.code = true := by simpa using hmem
  rw [h2] at h1
  cases h1

theorem addAll_subset_left (l cs : List String) : l ⊆ addAll l cs := by
  induction cs generalizing l with
  | nil => exact fun _ h => h
  | cons c cs ih =>
    intro x hx
    rw [addAll, List.foldl_cons]
    have hstep : x ∈ (if l.contains c then l else l ++ [c]) := by
      split
      · exact hx
      · exact List.mem_append_left _ hx
    exact ih (if l.contains c then l else l ++ [c]) hstep

theorem addAll_mem_right (l cs : List String) (c : String) (hc : c ∈ cs) :
    c ∈ addAll l cs := by
  induction cs generalizing l with
  | nil => cases hc
  | cons d ds ih =>
    rw [addAll, List.foldl_cons]
    rcases List.mem_cons.mp hc with h | h
    · subst h
      have : c ∈ (if l.contains c then l else l ++ [c]) := by
        split
        · next hcon => simpa using hcon
        · exact List.mem_append_right _ (List.mem_singleton.mpr rfl)
      exact addAll_subset_left _ ds this
    · exact ih _ h

theorem verifyBatchStep_seen_mono (facts : NoteFacts) (acc : BatchOut) (r : RResult) :
    acc.seenCodes ⊆ (verifyBatchStep facts acc r).seenCodes := by
  rw [verifyBatchStep]
  split
  · exact fun _ h => h
  · dsimp only
    split
    · exact fun x hx => List.mem_append_left _ hx
    · exact fun x hx => List.mem_append_left _ hx

theorem verifyBatch_foldl_seen_mono (facts : NoteFacts) (l : List RResult) (acc : BatchOut) :
    acc.seenCodes ⊆ (l.foldl (verifyBatchStep facts) acc).seenCodes := by
  induction l generalizing acc with
  | nil => exact fun _ h => h
  | cons r rs ih =>
    intro x hx
    rw [List.foldl_cons]
    exact ih (verifyBatchStep facts acc r) (verifyBatchStep_seen_mono facts acc r hx)

theorem verifyBatch_seen_mem (facts : NoteFacts) (results : List RResult) :
    ∀ r ∈ results, r.code ≠ "" → r.code ∈ (verifyBatch facts results).seenCodes := by
  rw [verifyBatch]
  generalize hacc : (⟨[], [], [], [], []⟩ : BatchOut) = acc
  clear hacc
  induction results generalizing acc with
  | nil => intro r hr; cases hr
  | cons q qs ih =>
    intro r hr hne
    rcases List.mem_cons.mp hr with h | h
    · subst h
      rw [List.foldl_cons]
      apply verifyBatch_foldl_seen_mono
      rw [verifyBatchStep]
      rw [if_neg hne]
      dsimp only
      split
      · exact List.mem_append_right _ (List.mem_singleton.mpr rfl)
      · exact List.mem_append_right _ (List.mem_singleton.mpr rfl)
    · rw [List.foldl_cons]
      exact ih _ r h hne

theorem verifyBatch_foldl_items_source (facts : NoteFacts) (l : List RResult) (acc : BatchOut) :
    ∀ it ∈ (l.foldl (verifyBatchStep facts) acc).items,
      it ∈ acc.items ∨ ∃ r ∈ l, r.code = it.code := by
  induction l generalizing acc with
  | nil => exact fun it h => Or.inl h
  | cons q qs ih =>
    intro it hit
    rw [List.foldl_cons] at hit
    rcases ih (verifyBatchStep facts acc q) it hit with h | ⟨r, hr, hcode⟩
    · rw [verifyBatchStep] at h
      split at h
      · exact Or.inl h
      · dsimp only at h
        split at h
        · rcases List.mem_append.mp h with h2 | h2
          · exact Or.inl h2
          · refine Or.inr ⟨q, List.mem_cons_self _ _, ?_⟩
            rw [List.mem_singleton.mp h2]
        · exact Or.inl h
    · exact Or.inr ⟨r, List.mem_cons_of_mem _ hr, hcode⟩

theorem verifyBatch_items_source (facts : NoteFacts) (results : List RResult) :
    ∀ it ∈ (verifyBatch facts results).items, ∃ r ∈ results, r.code = it.code := by
  intro it hit
  rcases verifyBatch_foldl_items_source facts results ⟨[], [], [], [], []⟩ it hit with h | h
  · cases h
  · exact h

theorem upsert_val_mem (m : List (String × VItem)) (it : VItem) :
    ∀ p ∈ upsert m it, p.2 ∈ m.map (fun q => q.2) ∨ p.2 = it := by
  intro p hp
  rw [upsert] at hp
  split at hp
  · rcases List.mem_map.mp hp with ⟨q, hq, hval⟩
    subst hval
    split
    · exact Or.inr rfl
    · exact Or.inl (List.mem_map.mpr ⟨q, hq, rfl⟩)
  · rcases List.mem_append.mp hp with h | h
    · exact Or.inl (List.mem_map.mpr ⟨p, h, rfl⟩)
    · rw [List.mem_singleton.mp h]
      exact Or.inr rfl

theorem foldl_upsert_val_mem (l : List VItem) (m : List (String × VItem)) :
    ∀ p ∈ l.foldl upsert m, p.2 ∈ m.map (fun q => q.2) ∨ p.2 ∈ l := by
  induction l generalizing m with
  | nil => exact fun p hp => Or.inl (List.mem_map.mpr ⟨p, hp, rfl⟩)
  | cons it l ih =>
    intro p hp
    rw [List.foldl_cons] at hp
    rcases ih (upsert m it) p hp with h | h
    · rcases List.mem_map.mp h with ⟨q, hq, hval⟩
      rcases upsert_val_mem m it q hq with h2 | h2
      · exact Or.inl (hval ▸ h2)
      · exact Or.inr (List.mem_cons.mpr (Or.inl (hval.symm.trans h2)))
    · exact Or.inr (List.mem_cons_of_mem _ h)

theorem mergeByCode_mem (l : List VItem) : ∀ it ∈ mergeByCode l, it ∈ l := by
  intro it hit
  rw [mergeByCode] at hit
  rcases List.mem_map.mp hit with ⟨p, hp, hval⟩
  rcases foldl_upsert_val_mem l [] p hp with h | h
  · simp at h
  · exact hval ▸ h

theorem verifyNode_banned_super (facts : NoteFacts) (s : AgentSt) (p : List RResult) :
    s.bannedCodes ⊆ (verifyNode facts s p).bannedCodes :=
  addAll_subset_left _ _

theorem verifyNode_banned_of_proposal (facts : NoteFacts) (s : AgentSt) (p : List RResult) :
    ∀ r ∈ p, r.code ≠ "" → r.code ∈ (verifyNode facts s p).bannedCodes := by
  intro r hr hne
  apply addAll_mem_right
  exact List.mem_append_right _ (verifyBatch_seen_mem facts p r hr hne)

theorem verifyNode_accepted_source (facts : NoteFacts) (s : AgentSt) (p : List RResult) :
    ∀ it ∈ (verifyNode facts s p).accepted,
      it ∈ s.accepted ∨ ∃ r ∈ p, r.code = it.code := by
  intro it hit
  have h := mergeByCode_mem _ it hit
  rcases List.mem_append.mp h with h2 | h2
  · exact Or.inl h2
  · exact Or.inr (verifyBatch_items_source facts p it h2)

/-- Per-round sanity: the proposal avoids the banned set it was issued
against and carries no empty codes; the banned set only grows through the
following verify; and every proposed code is banned afterwards. -/
def roundOk (e : RoundLog) : Prop :=
  (∀ r ∈ e.proposal, r.code ∉ e.bannedBefore ∧ r.code ≠ "")
    ∧ e.bannedBefore ⊆ e.after.bannedCodes
    ∧ (∀ r ∈ e.proposal, r.code ∈ e.after.bannedCodes)

/-- The round log is a chain: each round starts from the banned set the
previous verify produced. -/
def LogsOk : List String → List RoundLog → Prop
  | _, [] => True
  | banned, e :: rest =>
    e.bannedBefore = banned ∧ roundOk e ∧ LogsOk e.after.bannedCodes rest

theorem deepLoop_logsOk (oracle : Nat → Nat → List RResult) (facts : NoteFacts) :
    ∀ fuel s, LogsOk s.bannedCodes (deepLoop oracle facts fuel s).2 := by
  intro fuel
  induction fuel with
  | zero => intro s; trivial
  | succ n ih =>
    intro s
    rw [deepLoop]
    split
    · trivial
    · refine ⟨rfl, ⟨?_, ?_, ?_⟩, ?_⟩
      · exact mergeLoop_mem _ _ _
      · exact verifyNode_banned_super facts _ _
      · intro r hr
        exact verifyNode_banned_of_proposal facts _ _ r hr (mergeLoop_mem _ _ _ r hr).2
      · exact ih _

theorem deepRun_logsOk (oracle : Nat → Nat → List RResult) (facts : NoteFacts)
    (top fuel : Nat) : LogsOk [] (deepRun oracle facts top fuel).2 := by
  rw [deepRun]
  refine ⟨rfl, ⟨?_, ?_, ?_⟩, ?_⟩ <;> dsimp only
  · exact mergeLoop_mem _ _ _
  · exact List.nil_subset _
  · intro r hr
    exact verifyNode_banned_of_proposal facts _ _ r hr (mergeLoop_mem _ _ _ r hr).2
  · exact deepLoop_logsOk oracle facts fuel _

theorem logsOk_roundOk (b : List String) (tr : List RoundLog) (h : LogsOk b tr) :
    ∀ e ∈ tr, roundOk e := by
  induction tr generalizing b with
  | nil => intro e he; cases he
  | cons e rest ih =>
    intro e' he'
    rcases List.mem_cons.mp he' with h2 | h2
    · exact h2 ▸ h.2.1
    · exact ih _ h.2.2 e' h2

theorem logsOk_base_subset (b : List String) (tr : List RoundLog) (h : LogsOk b tr) :
    ∀ e ∈ tr, b ⊆ e.bannedBefore := by
  induction tr generalizing b with
  | nil => intro e he; cases he
  | cons e rest ih =>
    intro e' he'
    rcases List.mem_cons.mp he' with h2 | h2
    · subst h2
      rw [h.1]
      exact fun _ hx => hx
    · intro x hx
      have hx2 : x ∈ e.after.bannedCodes := h.2.1.2.1 (h.1 ▸ hx)
      exact ih _ h.2.2 e' h2 hx2

theorem logsOk_chain (b : List String) (tr : List RoundLog) (h : LogsOk b tr) :
    List.Chain' (fun a b => a.after.bannedCodes ⊆ b.after.bannedCodes) tr := by
  induction tr generalizing b with
  | nil => exact List.chain'_nil
  | cons e rest ih =>
    cases rest with
    | nil => simp
    | cons e2 rest2 =>
      rw [List.chain'_cons]
      refine ⟨?_, ih _ h.2.2⟩
      intro x hx
      have h1 : x ∈ e2.bannedBefore := h.2.2.1 ▸ hx
      exact h.2.2.2.1.2.1 h1

theorem logsOk_pairwise (b : List String) (tr : List RoundLog) (h : LogsOk b tr) :
    List.Pairwise (fun a b => ∀ r ∈ a.proposal,
      r.code ∉ b.proposal.map (fun r2 => r2.code)) tr := by
  induction tr generalizing b with
  | nil => exact List.Pairwise.nil
  | cons e rest ih =>
    rw [List.pairwise_cons]
    refine ⟨?_, ih _ h.2.2⟩
    intro e' he' r hr hmem
    rcases List.mem_map.mp hmem with ⟨r2, hr2, hcode⟩
    have hbanned : r.code ∈ e.after.bannedCodes := h.2.1.2.2 r hr
    have hsub : e.after.bannedCodes ⊆ e'.bannedBefore :=
      logsOk_base_subset _ rest h.2.2 e' he'
    have hnot : r2.code ∉ e'.bannedBefore := ((logsOk_roundOk _ rest h.2.2 e' he').1 r2 hr2).1
    exact hnot (hcode ▸ hsub hbanned)

/-- C3: across the rounds of one Deep-mode run, the banned set after each
verify is contained in the banned set after the next (monotone growth), and
a code proposed in any round is never proposed again in any later round,
whether it passed or failed verification. -/
theorem c3_banned_monotone_no_reproposal (oracle : Nat → Nat → List RResult)
    (facts : NoteFacts) (top fuel : Nat) :
    List.Chain' (fun a b => a.after.bannedCodes ⊆ b.after.bannedCodes)
      (deepRun oracle facts top fuel).2
    ∧ List.Pairwise (fun a b => ∀ r ∈ a.proposal,
        r.code ∉ b.proposal.map (fun r2 => r2.code)) (deepRun oracle facts top fuel).2 :=
  ⟨logsOk_chain _ _ (deepRun_logsOk oracle facts top fuel),
   logsOk_pairwise _ _ (deepRun_logsOk oracle facts top fuel)⟩

/-- A retrieval oracle whose round `r` first attempt returns one fresh code
(`"1"`, `"2"`, `"3"`, …) whose rule demands at least 60 minutes — which the
40-minute note `facts40` fails — so every round fails verification and the
loop runs to its iteration cap. -/
def oracleFail : Nat → Nat → List RResult := fun r a =>
  if a = 0 then [{ code := toString (r + 1), meta := { duration_min_minutes := some 60 } }] else []

/-- A retrieval oracle that proposes the single code `"23"` with an
unconstrained rule in the first round; `facts40` passes it. -/
def oraclePass : Nat → Nat → List RResult := fun r a =>
  if r = 0 && a = 0 then [{ code := "23" }] else []

/-- C3 witness: in the concrete three-round failing run, the banned sets
grow along consecutive rounds and the code proposed in round 0 is absent
from round 1's proposal. -/
theorem c3_witness :
    (((deepRun oracleFail facts40 5 2).2.get ⟨0, by decide⟩).after.bannedCodes
        ⊆ ((deepRun oracleFail facts40 5 2).2.get ⟨1, by decide⟩).after.bannedCodes)
    ∧ ∀ r ∈ ((deepRun oracleFail facts40 5 2).2.get ⟨0, by decide⟩).proposal,
        r.code ∉ ((deepRun oracleFail facts40 5 2).2.get ⟨1, by decide⟩).proposal.map
          (fun r2 => r2.code) := by
  have h := c3_banned_monotone_no_reproposal oracleFail facts40 5 2
  constructor
  · have hc := List.chain'_iff_get.mp h.1 0 (by decide)
    exact hc
  · have hp := List.pairwise_iff_get.mp h.2 ⟨0, by decide⟩ ⟨1, by decide⟩ (by decide)
    exact hp

/-! ### C4: the loop is bounded -/

theorem deepLoop_len (oracle : Nat → Nat → List RResult) (facts : NoteFacts) :
    ∀ fuel s, (deepLoop oracle facts fuel s).2.length + s.iterations ≤ 2
      ∨ (deepLoop oracle facts fuel s).2.length = 0 := by
  intro fuel
  induction fuel with
  | zero => intro s; right; rfl
  | succ n ih =>
    intro s
    rw [deepLoop]
    split
    · right; rfl
    · next hguard =>
      have hit : s.iterations < 2 := by
        simp only [Bool.or_eq_true, decide_eq_true_eq, not_or, Bool.not_eq_true,
          Nat.not_le] at hguard
        exact hguard.2
      left
      dsimp only [List.length_cons]
      rcases ih (verifyNode facts { s with iterations := s.iterations + 1 }
        (mergeLoop s.bannedCodes (topOr5 s.topN)
          [oracle (s.iterations + 1) 0, oracle (s.iterations + 1) 1,
           oracle (s.iterations + 1) 2])) with h | h
      · simp only [verifyNode] at h ⊢
        omega
      · rw [h]
        omega

theorem deepLoop_stops (oracle : Nat → Nat → List RResult) (facts : NoteFacts)
    (s : AgentSt) (h : s.done = true ∨ 2 ≤ s.iterations) :
    ∀ fuel, deepLoop oracle facts fuel s = (s, []) := by
  intro fuel
  cases fuel with
  | zero => rfl
  | succ n =>
    rw [deepLoop]
    rw [if_pos]
    rcases h with h | h
    · simp [h]
    · simp [h]

theorem deepLoop_stable (oracle : Nat → Nat → List RResult) (facts : NoteFacts) :
    ∀ f1 f2 s, 2 - s.iterations ≤ f1 → 2 - s.iterations ≤ f2 →
      deepLoop oracle facts f1 s = deepLoop oracle facts f2 s := by
  intro f1
  induction f1 with
  | zero =>
    intro f2 s h1 h2
    have hit : 2 ≤ s.iterations := by omega
    rw [deepLoop_stops oracle facts s (Or.inr hit) 0,
      deepLoop_stops oracle facts s (Or.inr hit) f2]
  | succ n ih =>
    intro f2 s h1 h2
    by_cases hg : s.done = true ∨ 2 ≤ s.iterations
    · rw [deepLoop_stops oracle facts s hg (n + 1), deepLoop_stops oracle facts s hg f2]
    · have hit : s.iterations < 2 := by
        rcases Nat.lt_or_ge s.iterations 2 with h | h
        · exact h
        · exact absurd (Or.inr h) hg
      cases f2 with
      | zero => omega
      | succ m =>
        rw [deepLoop, deepLoop]
        rw [if_neg (by simpa using hg), if_neg (by simpa using hg)]
        dsimp only
        have hrec := ih m (verifyNode facts { s with iterations := s.iterations + 1 }
          (mergeLoop s.bannedCodes (topOr5 s.topN)
            [oracle (s.iterations + 1) 0, oracle (s.iterations + 1) 1,
             oracle (s.iterations + 1) 2]))
          (by simp only [verifyNode]; omega) (by simp only [verifyNode]; omega)
        rw [hrec]

/-- C4: every Deep-mode run performs at most 3 propose rounds in total (the
initial propose plus at most 2 refinements: the loop is re-entered only
while `done` is false and the iteration counter is below 2), and any fuel of
at least 2 gives the same run — the loop has terminated. -/
theorem verifyNode_iterations (facts : NoteFacts) (s : AgentSt) (p : List RResult) :
    (verifyNode facts s p).iterations = s.iterations := rfl

theorem c4_round_bound (oracle : Nat → Nat → List RResult) (facts : NoteFacts)
    (top fuel : Nat) :
    (deepRun oracle facts top fuel).2.length ≤ 3
    ∧ (2 ≤ fuel → deepRun oracle facts top fuel = deepRun oracle facts top 2) := by
  constructor
  · have heq : (deepRun oracle facts top fuel).2.length
        = (deepLoop oracle facts fuel
            (verifyNode facts
              { topN := min (max top 1) 10, iterations := 0, done := false, bannedCodes := [],
                accepted := [], seenCodes := [] }
              (mergeLoop [] (topOr5 (min (max top 1) 10) + 3)
                [oracle 0 0, oracle 0 1, oracle 0 2]))).2.length + 1 := rfl
    rw [heq]
    rcases deepLoop_len oracle facts fuel
      (verifyNode facts
        { topN := min (max top 1) 10, iterations := 0, done := false, bannedCodes := [],
          accepted := [], seenCodes := [] }
        (mergeLoop [] (topOr5 (min (max top 1) 10) + 3) [oracle 0 0, oracle 0 1, oracle 0 2]))
      with h | h
    · rw [verifyNode_iterations] at h
      dsimp only at h
      omega
    · omega
  · intro hf
    have h := deepLoop_stable oracle facts fuel 2
      (verifyNode facts
        { topN := min (max top 1) 10, iterations := 0, done := false, bannedCodes := [],
          accepted := [], seenCodes := [] }
        (mergeLoop [] (topOr5 (min (max top 1) 10) + 3) [oracle 0 0, oracle 0 1, oracle 0 2]))
      (by rw [verifyNode_iterations]; dsimp only; omega)
      (by rw [verifyNode_iterations]; dsimp only; omega)
    rw [deepRun, deepRun, h]

/-- C4 witness: the failing run with generous fuel stops after 3 rounds and
equals the fuel-2 run. -/
theorem c4_round_bound_witness :
    (deepRun oracleFail facts40 5 7).2.length ≤ 3
    ∧ deepRun oracleFail facts40 5 7 = deepRun oracleFail facts40 5 2 :=
  ⟨(c4_round_bound oracleFail facts40 5 7).1,
   (c4_round_bound oracleFail facts40 5 7).2 (by decide)⟩

/-! ### C5: where the emitted items come from -/

theorem deepLoop_accepted_prov (oracle : Nat → Nat → List RResult) (facts : NoteFacts) :
    ∀ fuel s, ∀ it ∈ (deepLoop oracle facts fuel s).1.accepted,
      it ∈ s.accepted
        ∨ ∃ e ∈ (deepLoop oracle facts fuel s).2,
            (∃ r ∈ e.proposal, r.code = it.code) ∧ it.code ∉ e.bannedBefore := by
  intro fuel
  induction fuel with
  | zero => intro s it hit; exact Or.inl hit
  | succ n ih =>
    intro s it hit
    rw [deepLoop] at hit ⊢
    by_cases hg : (s.done || decide (s.iterations ≥ 2)) = true
    · rw [if_pos hg] at hit ⊢
      exact Or.inl hit
    · rw [if_neg hg] at hit ⊢
      dsimp only at hit ⊢
      rcases ih _ it hit with h | ⟨e, he, hprop⟩
      · rcases verifyNode_accepted_source facts _ _ it h with h2 | ⟨r, hr, hcode⟩
        · exact Or.inl h2
        · refine Or.inr ⟨_, List.mem_cons_self _ _, ⟨r, hr, hcode⟩, ?_⟩
          have := (mergeLoop_mem _ _ _ r hr).1
          rw [hcode] at this
          exact this
      · exact Or.inr ⟨e, List.mem_cons_of_mem _ he, hprop⟩

/-- C5 amended: every item in the emitted list was proposed in some round of
the run, and its code was *not* in the banned set that round was issued
against (bans only prevent re-proposal).  After verification, however, every
seen code — accepted ones included — enters `bannedCodes`, so accepted codes
do appear in `bannedCodes` at emission time. -/
theorem c5_amended (oracle : Nat → Nat → List RResult) (facts : NoteFacts) (top fuel : Nat) :
    ∀ it ∈ deepRunItems oracle facts top fuel,
      ∃ e ∈ (deepRun oracle facts top fuel).2,
        (∃ r ∈ e.proposal, r.code = it.code) ∧ it.code ∉ e.bannedBefore := by
  intro it hit
  have hmem : it ∈ (deepRun oracle facts top fuel).1.accepted :=
    List.take_subset _ _ hit
  have heq1 : (deepRun oracle facts top fuel).1
      = (deepLoop oracle facts fuel
          (verifyNode facts
            { topN := min (max top 1) 10, iterations := 0, done := false, bannedCodes := [],
              accepted := [], seenCodes := [] }
            (mergeLoop [] (topOr5 (min (max top 1) 10) + 3)
              [oracle 0 0, oracle 0 1, oracle 0 2]))).1 := rfl
  rw [heq1] at hmem
  rcases deepLoop_accepted_prov oracle facts fuel _ it hmem with h | ⟨e, he, hprop⟩
  · rcases verifyNode_accepted_source facts _ _ it h with h2 | ⟨r, hr, hcode⟩
    · cases h2
    · refine ⟨⟨[],
        mergeLoop [] (topOr5 (min (max top 1) 10) + 3) [oracle 0 0, oracle 0 1, oracle 0 2],
        verifyNode facts
          { topN := min (max top 1) 10, iterations := 0, done := false, bannedCodes := [],
            accepted := [], seenCodes := [] }
          (mergeLoop [] (topOr5 (min (max top 1) 10) + 3)
            [oracle 0 0, oracle 0 1, oracle 0 2])⟩, ?_, ⟨r, hr, hcode⟩, ?_⟩
      · rw [deepRun]
        exact List.mem_cons_self _ _
      · exact List.not_mem_nil _
  · refine ⟨e, ?_, hprop⟩
    rw [deepRun]
    exact List.mem_cons_of_mem _ he

/-- C5 counterexample: in the concrete passing run the single emitted item
has code `23`, and `23` *is* in `bannedCodes` at emission time — the verify
node bans every seen code, accepted ones included — so the claim "no code
in the final result appears in `bannedCodes`" fails. -/
theorem c5_counterexample :
    (deepRunItems oraclePass facts40 1 2).map (fun it => it.code) = ["23"]
    ∧ "23" ∈ (deepRun oraclePass facts40 1 2).1.bannedCodes := by
  refine ⟨by decide, by decide⟩

/-- C5 amended witness: the emitted item of the passing run traces back to a
round whose proposal contained its code while the code was still un-banned. -/
theorem c5_amended_witness :
    0 < (deepRunItems oraclePass facts40 1 2).length
    ∧ ∃ e ∈ (deepRun oraclePass facts40 1 2).2,
        (∃ r ∈ e.proposal,
          r.code = ((deepRunItems oraclePass facts40 1 2).get ⟨0, by decide⟩).code)
        ∧ ((deepRunItems oraclePass facts40 1 2).get ⟨0, by decide⟩).code ∉ e.bannedBefore :=
  ⟨by decide,
   c5_amended oraclePass facts40 1 2 _ (List.get_mem _ _ _)⟩
